import Mathlib

/-!
Verification of the fediwiki edit-versioning core.

This file gives a shallow embedding of the fediwiki backend (articles,
hash-chained edits, conflicts, the edit/fork/conflict API handlers, and the
federation fan-out and inbox dispatch), translated from the Rust sources
under `src/`, together with theorems settling the frozen claims about it.

External crates are modelled by their contracts and repository code that is
not part of the provided sources is modelled from the specification; every
such definition carries a doc comment saying so.
-/

set_option maxRecDepth 400000

namespace Fediwiki

/-! ## SHA-256 (the `sha2` crate), executable over byte lists -/

/-- Word modulus for 32-bit arithmetic. -/
def w32 : Nat := 4294967296

/-- Addition modulo 2^32. -/
def add32 (a b : Nat) : Nat := (a + b) % w32

/-- Right rotation of a 32-bit word. -/
def rotr (n x : Nat) : Nat := ((x >>> n) ||| (x <<< (32 - n))) % w32

/-- Round constants of SHA-256. -/
def sha256K : List Nat :=
  [1116352408, 1899447441, 3049323471, 3921009573, 961987163,
   1508970993, 2453635748, 2870763221, 3624381080, 310598401,
   607225278, 1426881987, 1925078388, 2162078206, 2614888103,
   3248222580, 3835390401, 4022224774, 264347078, 604807628,
   770255983, 1249150122, 1555081692, 1996064986, 2554220882,
   2821834349, 2952996808, 3210313671, 3336571891, 3584528711,
   113926993, 338241895, 666307205, 773529912, 1294757372,
   1396182291, 1695183700, 1986661051, 2177026350, 2456956037,
   2730485921, 2820302411, 3259730800, 3345764771, 3516065817,
   3600352804, 4094571909, 275423344, 430227734, 506948616,
   659060556, 883997877, 958139571, 1322822218, 1537002063,
   1747873779, 1955562222, 2024104815, 2227730452, 2361852424,
   2428436474, 2756734187, 3204031479, 3329325298]

/-- Working state of the compression function: eight 32-bit words. -/
structure Hash8 where
  a : Nat
  b : Nat
  c : Nat
  d : Nat
  e : Nat
  f : Nat
  g : Nat
  h : Nat
deriving DecidableEq, Repr

/-- Initial hash value of SHA-256. -/
def sha256Init : Hash8 :=
  ⟨1779033703, 3144134277, 1013904242, 2773480762,
   1359893119, 2600822924, 528734635, 1541459225⟩

/-- One message-schedule extension step: append word number `ws.length`. -/
def scheduleStep (ws : List Nat) : List Nat :=
  let i := ws.length
  let w15 := ws.getD (i - 15) 0
  let w2 := ws.getD (i - 2) 0
  let w16 := ws.getD (i - 16) 0
  let w7 := ws.getD (i - 7) 0
  let s0 := (rotr 7 w15) ^^^ (rotr 18 w15) ^^^ (w15 >>> 3)
  let s1 := (rotr 17 w2) ^^^ (rotr 19 w2) ^^^ (w2 >>> 10)
  ws ++ [add32 (add32 w16 s0) (add32 w7 s1)]

/-- Iterate the schedule extension. -/
def scheduleN : Nat → List Nat → List Nat
  | 0, ws => ws
  | n + 1, ws => scheduleN n (scheduleStep ws)

/-- One round of the SHA-256 compression function. -/
def sha256Round (st : Hash8) (k w : Nat) : Hash8 :=
  let s1 := (rotr 6 st.e) ^^^ (rotr 11 st.e) ^^^ (rotr 25 st.e)
  let ch := (st.e &&& st.f) ^^^ ((st.e ^^^ (w32 - 1)) &&& st.g)
  let temp1 := add32 (add32 (add32 st.h s1) (add32 ch k)) w
  let s0 := (rotr 2 st.a) ^^^ (rotr 13 st.a) ^^^ (rotr 22 st.a)
  let maj := (st.a &&& st.b) ^^^ (st.a &&& st.c) ^^^ (st.b &&& st.c)
  let temp2 := add32 s0 maj
  ⟨add32 temp1 temp2, st.a, st.b, st.c, add32 st.d temp1, st.e, st.f, st.g⟩

/-- Compress one 16-word block into the running state. -/
def sha256Compress (st : Hash8) (block : List Nat) : Hash8 :=
  let ws := scheduleN 48 block
  let fin := (sha256K.zip ws).foldl (fun s kw => sha256Round s kw.1 kw.2) st
  ⟨add32 st.a fin.a, add32 st.b fin.b, add32 st.c fin.c, add32 st.d fin.d,
   add32 st.e fin.e, add32 st.f fin.f, add32 st.g fin.g, add32 st.h fin.h⟩

/-- Group a list of bytes into 4-byte big-endian words. -/
def bytesToWords : List Nat → List Nat
  | b0 :: b1 :: b2 :: b3 :: rest => (((b0 * 256 + b1) * 256 + b2) * 256 + b3) :: bytesToWords rest
  | _ => []

/-- Split padded bytes into 16-word blocks (fuel-driven on the byte count). -/
def toBlocksAux : Nat → List Nat → List (List Nat)
  | 0, _ => []
  | _, [] => []
  | fuel + 1, bs => bytesToWords (bs.take 64) :: toBlocksAux fuel (bs.drop 64)

/-- Split a padded byte list into 64-byte blocks of 16 words. -/
def toBlocks (bs : List Nat) : List (List Nat) := toBlocksAux bs.length bs

/-- Big-endian 8-byte encoding of the message bit length. -/
def lenBytes (n : Nat) : List Nat :=
  [(n >>> 56) % 256, (n >>> 48) % 256, (n >>> 40) % 256, (n >>> 32) % 256,
   (n >>> 24) % 256, (n >>> 16) % 256, (n >>> 8) % 256, n % 256]

/-- Padding of SHA-256: 0x80, zeros to 56 mod 64, then the 64-bit bit length. -/
def sha256Pad (msg : List Nat) : List Nat :=
  let z := (64 - ((msg.length + 9) % 64)) % 64
  msg ++ [0x80] ++ List.replicate z 0 ++ lenBytes (8 * msg.length)

/-- Big-endian bytes of one 32-bit word. -/
def word4 (w : Nat) : List Nat :=
  [(w >>> 24) % 256, (w >>> 16) % 256, (w >>> 8) % 256, w % 256]

/-- Digest of SHA-256 over a byte list, as a list of 32 bytes. -/
def sha256 (msg : List Nat) : List Nat :=
  let st := (toBlocks (sha256Pad msg)).foldl sha256Compress sha256Init
  word4 st.a ++ word4 st.b ++ word4 st.c ++ word4 st.d ++
  word4 st.e ++ word4 st.f ++ word4 st.g ++ word4 st.h

/-- Encoding of one code point in UTF-8. -/
def utf8Bytes (c : Nat) : List Nat :=
  if c < 0x80 then [c]
  else if c < 0x800 then [0xC0 ||| (c >>> 6), 0x80 ||| (c &&& 0x3F)]
  else if c < 0x10000 then
    [0xE0 ||| (c >>> 12), 0x80 ||| ((c >>> 6) &&& 0x3F), 0x80 ||| (c &&& 0x3F)]
  else
    [0xF0 ||| (c >>> 18), 0x80 ||| ((c >>> 12) &&& 0x3F), 0x80 ||| ((c >>> 6) &&& 0x3F),
     0x80 ||| (c &&& 0x3F)]

/-- Byte encoding of a string in UTF-8. -/
def strBytes (s : String) : List Nat := (s.data.map (fun c => utf8Bytes c.toNat)).flatten

/-- Lowercase hex digit for a nibble. -/
def hexDigit (n : Nat) : Char := "0123456789abcdef".toList.getD (n % 16) '0'

/-- Lowercase hex encoding of a byte list (the `hex` crate). -/
def hexEncode (bs : List Nat) : String :=
  String.mk ((bs.map (fun b => [hexDigit (b / 16), hexDigit b])).flatten)

/-! ## EditVersion (`src/common/mod.rs`) -/

/-- Version hash of a specific edit: the first 16 bytes of the SHA-256 hash of
the diff, fitting a UUID (`EditVersion` in `src/common/mod.rs`). -/
structure EditVersion where
  bytes : List Nat
deriving DecidableEq, Repr

/-- Constructor `EditVersion::new`: SHA-256 the diff, keep the first 16 bytes. -/
def EditVersion.new (diff : String) : EditVersion :=
  ⟨(sha256 (strBytes diff)).take 16⟩

/-- Method `EditVersion::hash`: hex-encode the 16 raw bytes. -/
def EditVersion.hash (v : EditVersion) : String := hexEncode v.bytes

/-- Instance `Default for EditVersion`: the hash of the empty string. -/
def EditVersion.default : EditVersion := EditVersion.new ""

/-! ## The `diffy` crate, modelled by its contract

The repository stores patches produced by `diffy::create_patch(old, new)` and
replays them with `diffy::apply`. The crate is external, so a patch is
modelled by its contract: it records the source and the target text, its
serialization is determined by both, and applying it succeeds exactly on the
recorded source text, yielding the recorded target. -/

/-- Textual patch from one text to another (`diffy::Patch`). -/
structure Patch where
  orig : String
  modified : String
deriving DecidableEq, Repr

/-- Function `diffy::create_patch`. -/
def create_patch (old new : String) : Patch := ⟨old, new⟩

/-- Serialization `Patch::to_string`, an injective textual rendering. -/
def Patch.toText (p : Patch) : String :=
  "--- original\n+++ modified\n" ++ toString p.orig.length ++ ":" ++ p.orig ++ p.modified

/-- Function `diffy::apply`: applying a patch succeeds exactly on its source. -/
def applyPatch (base : String) (p : Patch) : Option String :=
  if p.orig = base then some p.modified else none

/-- Character-wise model of Rust `str::replace` with a one-character pattern
and replacement, written over the character list so that the kernel can
evaluate it. -/
def replaceChar (s : String) (c r : Char) : String :=
  String.mk (s.data.map (fun x => if x = c then r else x))

/-- Model of Rust `str::ends_with(char)` over the character list. -/
def endsWithChar (s : String) (c : Char) : Bool :=
  match s.data.getLast? with
  | some x => x = c
  | none => false

/-- Model of Rust `str::contains(char)` over the character list. -/
def containsChar (s : String) (c : Char) : Bool := s.data.contains c

/-! ## Data model (`src/common/mod.rs`, `src/backend/database/*.rs`) -/

/-- Row of the `article` table (`DbArticle`). `local` and `protected` are Lean
keywords, hence the `Flag` suffix on those two fields. -/
structure DbArticle where
  id : Nat
  title : String
  text : String
  ap_id : String
  instance_id : Nat
  localFlag : Bool
  protectedFlag : Bool
  approved : Bool
deriving DecidableEq, Repr

/-- Row of the `edit` table (`DbEdit`); `diff` is kept as a structured patch
rather than its serialization, with `Patch.toText` recovering the stored
string form. -/
structure DbEdit where
  id : Nat
  creator_id : Nat
  hash : EditVersion
  ap_id : String
  diff : Patch
  summary : String
  article_id : Nat
  previous_version_id : EditVersion
  published : Nat
deriving DecidableEq, Repr

/-- Row of the `conflict` table (`DbConflict`). -/
structure DbConflict where
  id : Nat
  hash : EditVersion
  diff : Patch
  summary : String
  creator_id : Nat
  article_id : Nat
  previous_version_id : EditVersion
deriving DecidableEq, Repr

/-- Database state: the three tables the article API touches, plus the
next fresh primary key for each. -/
structure State where
  articles : List DbArticle
  edits : List DbEdit
  conflicts : List DbConflict
  nextArticleId : Nat
  nextEditId : Nat
  nextConflictId : Nat
deriving DecidableEq, Repr

/-- Empty database. -/
def State.empty : State := ⟨[], [], [], 0, 0, 0⟩

/-- Authenticated caller context (`LocalUserView`: person id plus admin flag). -/
structure UserCtx where
  person_id : Nat
  admin : Bool
deriving DecidableEq, Repr

/-- Error taxonomy of the backend, one constructor per `anyhow!` message or
diesel failure reached by the modelled handlers. -/
inductive MyError where
  | titleEmpty
  | titleSlash
  | duplicateArticle
  | notFound
  | editNoChanges
  | noSummary
  | protectedArticle
  | localLinks
  | formatFailed
  | versionNotFound
  | editNotFound
  | fetchFailed
deriving DecidableEq, Repr

/-- Decidable equality for `Except`, so that concrete handler results can be
checked by evaluation. -/
instance {e a : Type} [DecidableEq e] [DecidableEq a] : DecidableEq (Except e a) := fun x y =>
  match x, y with
  | .ok v, .ok w =>
    if h : v = w then isTrue (by rw [h]) else isFalse (fun hc => h (Except.ok.inj hc))
  | .error v, .error w =>
    if h : v = w then isTrue (by rw [h]) else isFalse (fun hc => h (Except.error.inj hc))
  | .ok _, .error _ => isFalse (fun hc => Except.noConfusion hc)
  | .error _, .ok _ => isFalse (fun hc => Except.noConfusion hc)

/-- Returned conflict descriptor (`ApiConflict` in `src/common/mod.rs`, with
the fields constructed by `DbConflict::to_api_conflict`). -/
structure ApiConflict where
  id : Nat
  hash : EditVersion
  three_way_merge : String
  summary : String
  article : DbArticle
  previous_version_id : EditVersion
deriving DecidableEq, Repr

/-- Configuration and the two external text functions: `fmtm::format` (the
Markdown formatter, `none` on failure) and `diffy::merge` (three-way merge,
`Except.error` carries the text with conflict markers). -/
structure Config where
  domain : String
  articleApproval : Bool
  fmt : String → Option String
  mergeFn : String → String → String → Except String String

/-! ## Database operations -/

/-- Form for `DbArticle::create`. -/
structure DbArticleForm where
  title : String
  text : String
  ap_id : String
  instance_id : Nat
  localFlag : Bool
  protectedFlag : Bool
  approved : Bool
deriving DecidableEq, Repr

/-- Operation `DbArticle::create`: normalize spaces in the title to
underscores and insert; a plain insert fails on a duplicate `ap_id`. -/
def DbArticle.create (form : DbArticleForm) (s : State) :
    Except MyError (DbArticle × State) :=
  if s.articles.any (fun a => a.ap_id = form.ap_id) then
    .error .duplicateArticle
  else
    let article : DbArticle :=
      { id := s.nextArticleId
        title := replaceChar form.title ' ' '_'
        text := form.text
        ap_id := form.ap_id
        instance_id := form.instance_id
        localFlag := form.localFlag
        protectedFlag := form.protectedFlag
        approved := form.approved }
    .ok (article, { s with articles := s.articles ++ [article],
                           nextArticleId := s.nextArticleId + 1 })

/-- Operation `DbArticle::read`: look an article up by id. -/
def DbArticle.read (id : Nat) (s : State) : Option DbArticle :=
  s.articles.find? (fun a => a.id = id)

/-- Operation `DbArticle::update_text`: set the cached text of one article. -/
def DbArticle.update_text (id : Nat) (text : String) (s : State) : State :=
  { s with articles := s.articles.map (fun a => if a.id = id then { a with text := text } else a) }

/-- Operation `DbArticle::update_protected`. -/
def DbArticle.update_protected (id : Nat) (locked : Bool) (s : State) : State :=
  { s with articles :=
      s.articles.map (fun a => if a.id = id then { a with protectedFlag := locked } else a) }

/-- Operation `DbArticle::latest_edit_version`: hash of the edit with the
greatest id for this article (the last inserted one), or the default
sentinel when the article has no edits. -/
def DbArticle.latest_edit_version (a : DbArticle) (s : State) : EditVersion :=
  match (s.edits.filter (fun e => e.article_id = a.id)).getLast? with
  | some e => e.hash
  | none => EditVersion.default

/-- Operation `DbEdit::list_for_article`: all edits of one article, ordered by
insertion. -/
def DbEdit.list_for_article (article_id : Nat) (s : State) : List DbEdit :=
  s.edits.filter (fun e => e.article_id = article_id)

/-- Operation `DbEdit::read_for_article` (used by `to_api_conflict`), same
query as `list_for_article` keyed by the article row. -/
def DbEdit.read_for_article (article : DbArticle) (s : State) : List DbEdit :=
  s.edits.filter (fun e => e.article_id = article.id)

/-- Operation `DbEdit::read`: look an edit up by its version hash. -/
def DbEdit.read (version : EditVersion) (s : State) : Option DbEdit :=
  s.edits.find? (fun e => e.hash = version)

/-- Form for `DbEdit::create`. -/
structure DbEditForm where
  creator_id : Nat
  hash : EditVersion
  ap_id : String
  diff : Patch
  summary : String
  article_id : Nat
  previous_version_id : EditVersion
deriving DecidableEq, Repr

/-- Operation `DbEdit::create`: insert an edit row with a fresh id. -/
def DbEdit.create (form : DbEditForm) (s : State) : DbEdit × State :=
  let e : DbEdit :=
    { id := s.nextEditId
      creator_id := form.creator_id
      hash := form.hash
      ap_id := form.ap_id
      diff := form.diff
      summary := form.summary
      article_id := form.article_id
      previous_version_id := form.previous_version_id
      published := 0 }
  (e, { s with edits := s.edits ++ [e], nextEditId := s.nextEditId + 1 })

/-- Form for `DbConflict::create`. -/
structure DbConflictForm where
  hash : EditVersion
  diff : Patch
  summary : String
  creator_id : Nat
  article_id : Nat
  previous_version_id : EditVersion
deriving DecidableEq, Repr

/-- Operation `DbConflict::create`: insert a conflict row with a fresh id. -/
def DbConflict.create (form : DbConflictForm) (s : State) : DbConflict × State :=
  let c : DbConflict :=
    { id := s.nextConflictId
      hash := form.hash
      diff := form.diff
      summary := form.summary
      creator_id := form.creator_id
      article_id := form.article_id
      previous_version_id := form.previous_version_id }
  (c, { s with conflicts := s.conflicts ++ [c], nextConflictId := s.nextConflictId + 1 })

/-- Operation `DbConflict::delete` (`src/backend/database/conflict.rs`):
delete the row with the given primary key and return it; the query is keyed
by id only and performs no creator check. -/
def DbConflict.delete (id : Nat) (s : State) : Except MyError (DbConflict × State) :=
  match s.conflicts.find? (fun c => c.id = id) with
  | none => .error .notFound
  | some c => .ok (c, { s with conflicts := s.conflicts.filter (fun c => ¬ c.id = id) })

/-! ## Reconstruction and validation helpers -/

/-- Walk step of the reconstruction: find the next edit whose
`previous_version_id` equals the accumulated version, apply its diff, and
continue until the accumulated version reaches the target. -/
def gavWalk (edits : List DbEdit) (target : EditVersion) :
    Nat → EditVersion → String → Option String
  | 0, v, t => if v = target then some t else none
  | fuel + 1, v, t =>
    if v = target then some t
    else
      match edits.find? (fun e => e.previous_version_id = v) with
      | none => none
      | some e =>
        match applyPatch t e.diff with
        | none => none
        | some t2 => gavWalk edits target fuel e.hash t2

/-- Modelled from the spec: `generate_article_version` (in the backend utils
module, absent from the provided sources). Given the full edit list for an
article ordered by insertion, walk the chain starting at the sentinel
version, repeatedly finding the next edit whose `previous_version_id` equals
the current accumulated version and applying its diff, until the accumulated
version equals the target; `none` when no such chain position exists. -/
def generate_article_version (edits : List DbEdit) (target : EditVersion) : Option String :=
  gavWalk edits target edits.length EditVersion.default ""

/-- Modelled from the spec: `can_edit_article` (in `src/common/validation.rs`,
absent from the provided sources): editing a protected article as non-admin
is an authorization error. -/
def can_edit_article (article : DbArticle) (is_admin : Bool) : Except MyError Unit :=
  if article.protectedFlag && !is_admin then .error .protectedArticle else .ok ()

/-- Substring test on character lists. -/
def listContainsSub : List Char → List Char → Bool
  | [], pat => pat.isEmpty
  | c :: rest, pat => pat.isPrefixOf (c :: rest) || listContainsSub rest pat

/-- Test `String::contains` for a string pattern. -/
def strContains (hay pat : String) : Bool := listContainsSub hay.toList pat.toList

/-- Modelled from the spec: `submit_article_update` (in the federation
activities module, absent from the provided sources). For a local article it
appends the edit (diff from the article's current text to the new text,
hashed by `EditVersion::new` of the serialized patch), updates the cached
text, and federates the change; for a remote article it only sends
`UpdateRemoteArticle` to the origin, with no local write. -/
def submit_article_update (new_text summary : String) (previous_version : EditVersion)
    (original_article : DbArticle) (creator_id : Nat) (s : State) : State :=
  if original_article.localFlag then
    let patch := create_patch original_article.text new_text
    let form : DbEditForm :=
      { creator_id := creator_id
        hash := EditVersion.new patch.toText
        ap_id := original_article.ap_id ++ "/" ++ (EditVersion.new patch.toText).hash
        diff := patch
        summary := summary
        article_id := original_article.id
        previous_version_id := previous_version }
    let s2 := (DbEdit.create form s).2
    DbArticle.update_text original_article.id new_text s2
  else
    s

/-! ## Conflict resolution (`src/backend/database/conflict.rs`) -/

/-- Operation `DbConflict::to_api_conflict`. The forced dereference of the
owning article is modelled for the single-instance state: a local article
resolves to its stored row, and a remote fetch is unavailable
(`fetchFailed`). On a clean three-way merge the merged text is committed
against the origin, the conflict row is deleted and `none` is returned; on a
merge conflict the descriptor is returned and the row persists. -/
def DbConflict.to_api_conflict (cfg : Config) (c : DbConflict) (s : State) :
    State × Except MyError (Option ApiConflict) :=
  match DbArticle.read c.article_id s with
  | none => (s, .error .notFound)
  | some article =>
    if article.localFlag = false then (s, .error .fetchFailed)
    else
      let original_article := article
      let edits := DbEdit.read_for_article original_article s
      match generate_article_version edits c.previous_version_id with
      | none => (s, .error .versionNotFound)
      | some ancestor =>
        match applyPatch ancestor c.diff with
        | none => (s, .error .versionNotFound)
        | some ours =>
          match cfg.mergeFn ancestor ours original_article.text with
          | .ok new_text =>
            let s2 := submit_article_update new_text c.summary c.previous_version_id
                original_article c.creator_id s
            match DbConflict.delete c.id s2 with
            | .error e => (s2, .error e)
            | .ok (_, s3) => (s3, .ok none)
          | .error three_way_merge =>
            (s, .ok (some
              { id := c.id
                hash := c.hash
                three_way_merge := three_way_merge
                summary := c.summary
                article := original_article
                previous_version_id := DbArticle.latest_edit_version original_article s }))

/-! ## Article API handlers (`src/backend/api/article.rs`) -/

/-- Form `EditArticleForm`. -/
structure EditArticleForm where
  article_id : Nat
  new_text : String
  summary : String
  previous_version_id : EditVersion
  resolve_conflict_id : Option Nat
deriving DecidableEq, Repr

/-- Handler `edit_article`, body after the optional conflict resolution and
the article read: validation, trailing-newline normalization, Markdown
formatting, then either the direct commit (stated previous version equals
the latest version) or conflict creation followed by an immediate
auto-merge attempt. -/
def edit_article_checked (cfg : Config) (user : UserCtx) (edit_form : EditArticleForm)
    (original_article : DbArticle) (s : State) :
    State × Except MyError (Option ApiConflict) :=
  if edit_form.new_text = original_article.text then (s, .error .editNoChanges)
  else if edit_form.summary = "" then (s, .error .noSummary)
  else
    match can_edit_article original_article user.admin with
    | .error e => (s, .error e)
    | .ok _ =>
      let new_text0 :=
        if endsWithChar edit_form.new_text '\n' then edit_form.new_text
        else edit_form.new_text ++ "\n"
      let local_link := "](https://" ++ cfg.domain
      if strContains new_text0 local_link then (s, .error .localLinks)
      else
        match cfg.fmt new_text0 with
        | none => (s, .error .formatFailed)
        | some new_text =>
          if edit_form.previous_version_id = DbArticle.latest_edit_version original_article s then
            let s2 := submit_article_update new_text edit_form.summary
                edit_form.previous_version_id original_article user.person_id s
            (s2, .ok none)
          else
            let edits := DbEdit.list_for_article original_article.id s
            match generate_article_version edits edit_form.previous_version_id with
            | none => (s, .error .versionNotFound)
            | some ancestor =>
              let patch := create_patch ancestor new_text
              match DbEdit.read edit_form.previous_version_id s with
              | none => (s, .error .editNotFound)
              | some previous_version =>
                let form : DbConflictForm :=
                  { hash := EditVersion.new patch.toText
                    diff := patch
                    summary := edit_form.summary
                    creator_id := user.person_id
                    article_id := original_article.id
                    previous_version_id := previous_version.hash }
                let cs := DbConflict.create form s
                DbConflict.to_api_conflict cfg cs.1 cs.2

/-- Handler `edit_article`: resolve the named conflict first when a
`resolve_conflict_id` is supplied, read the article, then run the checked
body. -/
def edit_article (cfg : Config) (user : UserCtx) (edit_form : EditArticleForm) (s : State) :
    State × Except MyError (Option ApiConflict) :=
  match edit_form.resolve_conflict_id with
  | some cid =>
    match DbConflict.delete cid s with
    | .error e => (s, .error e)
    | .ok (_, s1) =>
      match DbArticle.read edit_form.article_id s1 with
      | none => (s1, .error .notFound)
      | some a => edit_article_checked cfg user edit_form a s1
  | none =>
    match DbArticle.read edit_form.article_id s with
    | none => (s, .error .notFound)
    | some a => edit_article_checked cfg user edit_form a s

/-- Form `CreateArticleForm`. -/
structure CreateArticleForm where
  title : String
  text : String
  summary : String
deriving DecidableEq, Repr

/-- Handler `create_article`: validate the title, insert an article with
empty text, then submit the initial text through `edit_article` (whose
failure propagates after the article row is already inserted), and federate
the creation (no further local write). -/
def create_article (cfg : Config) (user : UserCtx) (form : CreateArticleForm) (s : State) :
    State × Except MyError DbArticle :=
  if form.title = "" then (s, .error .titleEmpty)
  else if containsChar form.title '/' then (s, .error .titleSlash)
  else
    let escaped_title := replaceChar form.title ' ' '_'
    let ap_id := "http://" ++ cfg.domain ++ "/article/" ++ escaped_title
    match DbArticle.create
        { title := form.title, text := "", ap_id := ap_id, instance_id := 0,
          localFlag := true, protectedFlag := false, approved := !cfg.articleApproval } s with
    | .error e => (s, .error e)
    | .ok (article, s1) =>
      let edit_form : EditArticleForm :=
        { article_id := article.id
          new_text := form.text
          summary := form.summary
          previous_version_id := DbArticle.latest_edit_version article s1
          resolve_conflict_id := none }
      match edit_article cfg user edit_form s1 with
      | (s2, .error e) => (s2, .error e)
      | (s2, .ok _) => (s2, .ok article)

/-- Form `ForkArticleForm`. -/
structure ForkArticleForm where
  article_id : Nat
  new_title : String
deriving DecidableEq, Repr

/-- Loop body of `fork_article`: copy every edit of the source chain into the
new article verbatim (same hash, diff, summary, creator, chain pointer). -/
def forkCopyEdits (article : DbArticle) (edits : List DbEdit) (s : State) : State :=
  edits.foldl
    (fun st e =>
      (DbEdit.create
        { creator_id := e.creator_id
          hash := e.hash
          ap_id := article.ap_id ++ "/" ++ e.hash.hash
          diff := e.diff
          summary := e.summary
          article_id := article.id
          previous_version_id := e.previous_version_id } st).2)
    s

/-- Handler `fork_article`: create a local article carrying the source's
current text, then copy the source's edit chain, then federate the creation. -/
def fork_article (cfg : Config) (_user : UserCtx) (form : ForkArticleForm) (s : State) :
    State × Except MyError DbArticle :=
  match DbArticle.read form.article_id s with
  | none => (s, .error .notFound)
  | some original =>
    let ap_id := "http://" ++ cfg.domain ++ "/article/" ++ form.new_title
    match DbArticle.create
        { title := form.new_title, text := original.text, ap_id := ap_id, instance_id := 0,
          localFlag := true, protectedFlag := false, approved := !cfg.articleApproval } s with
    | .error e => (s, .error e)
    | .ok (article, s1) =>
      let edits := DbEdit.list_for_article original.id s1
      (forkCopyEdits article edits s1, .ok article)

/-- Form `DeleteConflictForm`. -/
structure DeleteConflictForm where
  conflict_id : Nat
deriving DecidableEq, Repr

/-- Handler `delete_conflict`: the endpoint receives the authenticated user
but the underlying `DbConflict::delete` is keyed by id only, so the caller's
identity does not influence the deletion. -/
def delete_conflict (user : UserCtx) (params : DeleteConflictForm) (s : State) :
    State × Except MyError Unit :=
  let _ := user.person_id
  match DbConflict.delete params.conflict_id s with
  | .error e => (s, .error e)
  | .ok (_, s1) => (s1, .ok ())

/-- Form `ProtectArticleForm` (the flag field is a Lean keyword in the
original spelling). -/
structure ProtectArticleForm where
  article_id : Nat
  protectedFlag : Bool
deriving DecidableEq, Repr

/-- Handler `protect_article`: admin-gated `update_protected`. -/
def protect_article (user : UserCtx) (form : ProtectArticleForm) (s : State) :
    State × Except MyError Unit :=
  if user.admin then
    (DbArticle.update_protected form.article_id form.protectedFlag s, .ok ())
  else
    (s, .error .protectedArticle)

/-! ## Reachability: the operations of the article API as a state machine -/

/-- One API call. -/
inductive Op where
  | createArticle (user : UserCtx) (form : CreateArticleForm)
  | editArticle (user : UserCtx) (form : EditArticleForm)
  | forkArticle (user : UserCtx) (form : ForkArticleForm)
  | deleteConflict (user : UserCtx) (form : DeleteConflictForm)
  | protectArticle (user : UserCtx) (form : ProtectArticleForm)

/-- Database state after one API call (results are returned to the caller and
discarded here). -/
def applyOp (cfg : Config) (s : State) : Op → State
  | .createArticle u f => (create_article cfg u f s).1
  | .editArticle u f => (edit_article cfg u f s).1
  | .forkArticle u f => (fork_article cfg u f s).1
  | .deleteConflict u f => (delete_conflict u f s).1
  | .protectArticle u f => (protect_article u f s).1

/-- Database state reached by a sequence of API calls from the empty state. -/
def run (cfg : Config) (ops : List Op) : State :=
  ops.foldl (applyOp cfg) State.empty

/-! ## Replay of an edit chain -/

/-- Replay a list of edits from a starting text by applying each stored diff
in order; `none` as soon as a diff does not apply. -/
def replayFold (t : String) : List DbEdit → Option String
  | [] => some t
  | e :: es =>
    match applyPatch t e.diff with
    | none => none
    | some t2 => replayFold t2 es

/-- Replay of an article's stored edits from the empty text. -/
def replay (es : List DbEdit) : Option String := replayFold "" es

/-- Check that a list of edits forms an unbroken hash chain from the given
version and text: each edit's `previous_version_id` is the accumulated
version and its diff applies to the accumulated text. -/
def chainFrom : EditVersion → String → List DbEdit → Bool
  | _, _, [] => true
  | v, t, e :: es =>
    decide (e.previous_version_id = v) && decide (e.diff.orig = t) &&
      chainFrom e.hash e.diff.modified es

/-- Accumulated versions of a chain walk, the starting version included. -/
def vchain : EditVersion → List DbEdit → List EditVersion
  | v, [] => [v]
  | v, e :: es => v :: vchain e.hash es

/-- Final version of a chain walk. -/
def endVer : EditVersion → List DbEdit → EditVersion
  | v, [] => v
  | _, e :: es => endVer e.hash es

/-- Final text of a chain walk. -/
def endText : String → List DbEdit → String
  | t, [] => t
  | _, e :: es => endText e.diff.modified es

/-- Replay invariant: each article's materialized text is the in-order replay
of its stored edit diffs, and every stored id is below its fresh counter. -/
def Inv (s : State) : Prop :=
  (∀ a ∈ s.articles, replay (DbEdit.list_for_article a.id s) = some a.text)
  ∧ (∀ a ∈ s.articles, a.id < s.nextArticleId)
  ∧ (∀ e ∈ s.edits, e.article_id < s.nextArticleId)
  ∧ (∀ c ∈ s.conflicts, c.id < s.nextConflictId)

/-! ## Federation fan-out (`src/backend/federation/objects/instance.rs`,
`src/backend/database/instance.rs`) -/

/-- Row of the `person` table, reduced to the fields the fan-out reads. -/
structure DbPerson where
  id : Nat
  username : String
  ap_id : String
  inbox_url : String
  localFlag : Bool
deriving DecidableEq, Repr

/-- Row of the `instance` table, reduced to the fields the fan-out reads. -/
structure DbInstance where
  id : Nat
  domain : String
  ap_id : String
  inbox_url : String
  localFlag : Bool
deriving DecidableEq, Repr

/-- Edge of the `instance_follow` table. -/
structure InstanceFollow where
  instance_id : Nat
  follower_id : Nat
  pending : Bool
deriving DecidableEq, Repr

/-- Federation-side database state. -/
structure FedDb where
  instances : List DbInstance
  persons : List DbPerson
  follows : List InstanceFollow
deriving DecidableEq, Repr

/-- Operation `DbInstance::read_followers`: join `instance_follow` rows for
the instance with the `person` table; the query filters on the instance id
only. -/
def DbInstance.read_followers (id : Nat) (db : FedDb) : List DbPerson :=
  (db.follows.filter (fun f => f.instance_id = id)).filterMap
    (fun f => db.persons.find? (fun p => p.id = f.follower_id))

/-- Method `DbInstance::send_to_followers`, reduced to the delivery inbox
list it builds: the follower inboxes plus the extra recipients' inboxes
(signing and per-inbox delivery happen in the federation library). -/
def DbInstance.send_to_followers_inboxes (inst : DbInstance)
    (extra_recipients : List DbInstance) (db : FedDb) : List String :=
  (DbInstance.read_followers inst.id db).map (fun f => f.inbox_url)
    ++ extra_recipients.map (fun i => i.inbox_url)

/-- Modelled from the spec (comparison definition for the fan-out claim):
the inbox set built from `InstanceFollow` edges where `pending = false`,
plus the explicit extra recipients. -/
def sendToFollowersSpecInboxes (inst : DbInstance)
    (extra_recipients : List DbInstance) (db : FedDb) : List String :=
  ((db.follows.filter (fun f => f.instance_id = inst.id ∧ f.pending = false)).filterMap
      (fun f => db.persons.find? (fun p => p.id = f.follower_id))).map (fun f => f.inbox_url)
    ++ extra_recipients.map (fun i => i.inbox_url)

/-! ## Inbound dispatch (`src/backend/federation/routes.rs`,
`src/backend/federation/activities/announce.rs`) -/

/-- Wire payload of `Follow` (modelled from the spec wire shape: actor,
object, type, id). -/
structure FollowActivity where
  actor : String
  object : String
  id : String
deriving DecidableEq, Repr

/-- Wire payload of `Accept` (`src/backend/federation/activities/accept.rs`):
the accepted Follow is nested as the object. -/
structure AcceptActivity where
  actor : String
  object : FollowActivity
  id : String
deriving DecidableEq, Repr

/-- Wire payload of `CreateArticle`
(`src/backend/federation/activities/create_article.rs`), the embedded
article reduced to its identifier. -/
structure CreateArticleActivity where
  actor : String
  to_ : List String
  object : String
  id : String
deriving DecidableEq, Repr

/-- Wire payload of `UpdateLocalArticle` (modelled from the spec wire shape). -/
structure UpdateLocalArticleActivity where
  actor : String
  object : String
  id : String
deriving DecidableEq, Repr

/-- Wire payload of `UpdateRemoteArticle` (modelled from the spec wire shape). -/
structure UpdateRemoteArticleActivity where
  actor : String
  object : String
  id : String
deriving DecidableEq, Repr

/-- Wire payload of `RejectEdit` (modelled from the spec wire shape). -/
structure RejectEditActivity where
  actor : String
  object : String
  id : String
deriving DecidableEq, Repr

/-- Enumeration of the activity kinds of the propagation state machine. -/
inductive ActivityKind where
  | follow
  | accept
  | createArticle
  | updateLocalArticle
  | updateRemoteArticle
  | rejectEdit
  | announce
deriving DecidableEq, Repr

/-- Closed inbound dispatch union `InboxActivities`
(`src/backend/federation/routes.rs`): the list of all activities this actor
can receive. -/
inductive InboxActivities where
  | follow (a : FollowActivity)
  | accept (a : AcceptActivity)
  | createArticle (a : CreateArticleActivity)
  | updateLocalArticle (a : UpdateLocalArticleActivity)
  | updateRemoteArticle (a : UpdateRemoteArticleActivity)
  | rejectEdit (a : RejectEditActivity)
deriving DecidableEq, Repr

/-- Activity kind of an inbox dispatch variant. -/
def InboxActivities.kind : InboxActivities → ActivityKind
  | .follow _ => .follow
  | .accept _ => .accept
  | .createArticle _ => .createArticle
  | .updateLocalArticle _ => .updateLocalArticle
  | .updateRemoteArticle _ => .updateRemoteArticle
  | .rejectEdit _ => .rejectEdit

/-- Kinds receivable through the inbound dispatch union. -/
def inboxKinds : List ActivityKind :=
  [.follow, .accept, .createArticle, .updateLocalArticle, .updateRemoteArticle, .rejectEdit]

/-- Modelled from the spec: the wrapped activity inside an `Announce`
(`AnnouncableActivities`, absent from the provided `routes.rs`), reduced to
its two-phase contract over a state type: a pure `verify` check and a
state-mutating `receive`. -/
structure AnnouncableActivity (σ : Type) where
  verifyOk : σ → Bool
  receiveFn : σ → σ

/-- Wire payload of `Announce`
(`src/backend/federation/activities/announce.rs`). -/
structure AnnounceActivity (σ : Type) where
  actor : String
  to_ : List String
  object : AnnouncableActivity σ
  id : String

/-- Method `AnnounceActivity::receive`: verify the wrapped activity first and
only then receive it; a verification failure propagates as an error. -/
def AnnounceActivity.receive {σ : Type} (a : AnnounceActivity σ) (s : σ) : Except Unit σ :=
  if a.object.verifyOk s then .ok (a.object.receiveFn s) else .error ()

/-- Inbox processing of an `Announce`: an activity whose `receive` fails
leaves the state unchanged (the library discards the delivery). -/
def handleAnnounce {σ : Type} (a : AnnounceActivity σ) (s : σ) : σ :=
  match a.receive s with
  | .ok s2 => s2
  | .error _ => s

/-! ## Concrete external functions for evaluation -/

/-- Modelled from the spec: contract of `diffy::merge` used for concrete
evaluations. It merges cleanly when one side left the ancestor unchanged or
both sides agree, and otherwise reports a conflict, returning the text with
conflict markers. -/
def diffyMerge (ancestor ours theirs : String) : Except String String :=
  if ours = ancestor then .ok theirs
  else if theirs = ancestor then .ok ours
  else if ours = theirs then .ok ours
  else .error ("<<<<<<< ours\n" ++ ours ++ "=======\n" ++ theirs ++ ">>>>>>> theirs\n")

/-- Configuration used by the concrete evaluations: identity Markdown
formatter and the modelled merge. -/
def cfg0 : Config :=
  { domain := "example.com", articleApproval := false, fmt := fun s => some s,
    mergeFn := diffyMerge }

/-- Non-admin test user. -/
def u0 : UserCtx := ⟨1, false⟩

/-- Segment versions of a chain walk: the version at each step that still has
an edit to consume (the final version excluded). -/
def stepVers : EditVersion → List DbEdit → List EditVersion
  | _, [] => []
  | v, e :: es => v :: stepVers e.hash es

/-! ## Concrete instances used by the evaluations -/

/-- Remote instance used by the fan-out evaluations. -/
def remoteInstance : DbInstance :=
  ⟨2, "other.example", "http://other.example", "http://other.example/inbox", false⟩

/-- Local instance used by the fan-out evaluations. -/
def localInstance : DbInstance :=
  ⟨1, "example.com", "http://example.com", "http://example.com/inbox", true⟩

/-- Remote person used by the fan-out evaluations. -/
def remotePerson : DbPerson :=
  ⟨10, "alice", "http://other.example/user/alice", "http://other.example/user/alice/inbox", false⟩

/-- Federation database with a single follow edge that is still pending. -/
def fedDbPending : FedDb :=
  ⟨[localInstance, remoteInstance], [remotePerson], [⟨1, 10, true⟩]⟩

/-- Federation database with a single established (non-pending) follow edge. -/
def fedDbEstablished : FedDb :=
  ⟨[localInstance, remoteInstance], [remotePerson], [⟨1, 10, false⟩]⟩

/-- State holding one conflict created by person 1, used for the
authorization evaluations. -/
def conflictState : State :=
  { articles := [], edits := [],
    conflicts := [⟨0, ⟨[7]⟩, ⟨"a\n", "b\n"⟩, "sum", 1, 0, ⟨[8]⟩⟩],
    nextArticleId := 0, nextEditId := 0, nextConflictId := 1 }

/-- Article used by the conflict-resolution witness. -/
def c3Article : DbArticle := ⟨0, "T", "B\n", "http://example.com/article/T", 0, true, false, true⟩

/-- State used by the conflict-resolution witness: one article, one edit, one
stored conflict whose submitter started from the sentinel version. -/
def c3State : State :=
  { articles := [c3Article],
    edits := [⟨0, 1, ⟨[1]⟩, "ap", ⟨"", "B\n"⟩, "s", 0, EditVersion.default, 0⟩],
    conflicts := [⟨0, ⟨[2]⟩, ⟨"", "C\n"⟩, "s2", 1, 0, EditVersion.default⟩],
    nextArticleId := 1, nextEditId := 1, nextConflictId := 1 }

/-- Article with trailing-newline text used by the no-op check witness. -/
def c10Article : DbArticle := ⟨0, "T", "Hi\n", "http://example.com/article/T", 0, true, false, true⟩

/-- State holding only that article. -/
def c10State : State := ⟨[c10Article], [], [], 1, 0, 0⟩

/-- State with one article and one stored conflict, used to show that a
rejected call that carries a `resolve_conflict_id` still removes the
conflict. -/
def c4State : State :=
  { articles := [⟨0, "T", "b\n", "http://example.com/article/T", 0, true, false, true⟩],
    edits := [],
    conflicts := [⟨0, ⟨[7]⟩, ⟨"x", "y"⟩, "s", 1, 0, ⟨[8]⟩⟩],
    nextArticleId := 1, nextEditId := 0, nextConflictId := 1 }

/-- Source article used by the fork witness. -/
def c8Article : DbArticle := ⟨0, "T", "B\n", "http://example.com/article/T", 0, true, false, true⟩

/-- State with one article and a one-edit chain, used by the fork witness. -/
def c8State : State :=
  { articles := [c8Article],
    edits := [⟨0, 1, ⟨[1]⟩, "ap", ⟨"", "B\n"⟩, "s", 0, EditVersion.default, 0⟩],
    conflicts := [], nextArticleId := 1, nextEditId := 1, nextConflictId := 0 }

/-- Version hash of the first edit of the counterexample run. -/
def v1 : EditVersion := EditVersion.new (Patch.toText (create_patch "" "Hello\n"))

/-- Run that breaks the hash chain: two direct commits, then a divergent
submission against the first version whose auto-merge commits cleanly with
the conflict's ancestor version as `previous_version_id`. -/
def c1Ops : List Op :=
  [ .createArticle u0 ⟨"T", "Hello", "s1"⟩,
    .editArticle u0 ⟨0, "World", "s2", v1, none⟩,
    .editArticle u0 ⟨0, "Hello", "s3", v1, none⟩ ]

/-- Run of a single article creation. -/
def c1OpsW : List Op := [ .createArticle u0 ⟨"T", "Hello", "s1"⟩ ]

/-- The article produced by that run. -/
def c1ArtW : DbArticle := ⟨0, "T", "Hello\n", "http://example.com/article/T", 0, true, false, true⟩

/-- State with one article and a one-edit chain whose hash is `[7]`, used by
the divergence evaluations. -/
def c2State : State :=
  { articles := [⟨0, "T", "B\n", "http://example.com/article/T", 0, true, false, true⟩],
    edits := [⟨0, 1, ⟨[7]⟩, "ap", ⟨"", "B\n"⟩, "s", 0, EditVersion.default, 0⟩],
    conflicts := [], nextArticleId := 1, nextEditId := 1, nextConflictId := 0 }

theorem applyPatch_create_patch (a b : String) : applyPatch a (create_patch a b) = some b := by
  simp [applyPatch, create_patch]

theorem replayFold_append (t : String) (es fs : List DbEdit) :
    replayFold t (es ++ fs) = (replayFold t es).bind (fun u => replayFold u fs) := by
  induction es generalizing t with
  | nil => simp [replayFold]
  | cons e es ih =>
    simp only [List.cons_append, replayFold]
    cases h : applyPatch t e.diff with
    | none => simp
    | some t2 => simpa using ih t2

theorem replayFold_congr {es fs : List DbEdit}
    (h : es.map (fun e => e.diff) = fs.map (fun e => e.diff)) :
    ∀ t, replayFold t es = replayFold t fs := by
  induction es generalizing fs with
  | nil =>
    cases fs with
    | nil => intro t; rfl
    | cons f fs => simp at h
  | cons e es ih =>
    cases fs with
    | nil => simp at h
    | cons f fs =>
      simp only [List.map_cons, List.cons.injEq] at h
      intro t
      simp only [replayFold, h.1]
      cases h2 : applyPatch t f.diff with
      | none => rfl
      | some t2 => exact ih h.2 t2

theorem replayFold_of_chainFrom :
    ∀ (es : List DbEdit) (v : EditVersion) (t : String),
      chainFrom v t es = true → replayFold t es = some (endText t es) := by
  intro es
  induction es with
  | nil => intro v t _; rfl
  | cons e es ih =>
    intro v t h
    simp only [chainFrom, Bool.and_eq_true, decide_eq_true_eq] at h
    obtain ⟨⟨h1, h2⟩, h3⟩ := h
    simp only [replayFold, endText, applyPatch, h2, if_pos]
    exact ih e.hash e.diff.modified h3

theorem endVer_mem : ∀ (es : List DbEdit) (v : EditVersion), endVer v es ∈ vchain v es := by
  intro es
  induction es with
  | nil => intro v; simp [endVer, vchain]
  | cons e es ih => intro v; simp only [endVer, vchain, List.mem_cons]; exact Or.inr (ih e.hash)

theorem stepVers_subset :
    ∀ (es : List DbEdit) (v w : EditVersion), w ∈ stepVers v es → w ∈ vchain v es := by
  intro es
  induction es with
  | nil => intro v w h; simp [stepVers] at h
  | cons e es ih =>
    intro v w h
    simp only [stepVers, List.mem_cons] at h
    simp only [vchain, List.mem_cons]
    exact h.imp id (ih e.hash w)

theorem endVer_eq_getLast :
    ∀ (es : List DbEdit) (v : EditVersion),
      endVer v es = (match es.getLast? with | some e => e.hash | none => v) := by
  intro es
  induction es with
  | nil => intro v; rfl
  | cons e es ih =>
    intro v
    cases es with
    | nil => rfl
    | cons f fs => simpa [endVer, List.getLast?_cons_cons] using ih v

theorem latest_eq_endVer (a : DbArticle) (s : State) :
    DbArticle.latest_edit_version a s = endVer EditVersion.default (DbEdit.list_for_article a.id s) := by
  rw [endVer_eq_getLast]
  rfl

theorem find?_append_of_none {α : Type} {p : α → Bool} {l1 l2 : List α}
    (h : l1.find? p = none) : (l1 ++ l2).find? p = l2.find? p := by
  induction l1 with
  | nil => rfl
  | cons x l1 ih =>
    cases hx : p x with
    | true => rw [List.find?_cons_of_pos _ hx] at h; exact absurd h (by simp)
    | false =>
      have hx2 : ¬ p x = true := by simp [hx]
      rw [List.find?_cons_of_neg _ hx2] at h
      rw [List.cons_append, List.find?_cons_of_neg _ hx2]
      exact ih h

theorem endVer_cons (v : EditVersion) (e : DbEdit) (es : List DbEdit) :
    endVer v (e :: es) = endVer e.hash es := rfl

theorem endText_cons (t : String) (e : DbEdit) (es : List DbEdit) :
    endText t (e :: es) = endText e.diff.modified es := rfl

theorem gavWalk_chain :
    ∀ (suf pre : List DbEdit) (v : EditVersion) (t : String) (fuel : Nat),
      chainFrom v t suf = true →
      (vchain v suf).Nodup →
      (∀ e ∈ pre, e.previous_version_id ∉ stepVers v suf) →
      suf.length ≤ fuel →
      gavWalk (pre ++ suf) (endVer v suf) fuel v t = some (endText t suf) := by
  intro suf
  induction suf with
  | nil =>
    intro pre v t fuel _ _ _ _
    cases fuel <;> simp [gavWalk, endVer, endText]
  | cons e es ih =>
    intro pre v t fuel hchain hnd hpre hfuel
    simp only [chainFrom, Bool.and_eq_true, decide_eq_true_eq] at hchain
    obtain ⟨⟨hprev, horig⟩, hrest⟩ := hchain
    simp only [vchain, List.nodup_cons] at hnd
    obtain ⟨hvnot, hndtail⟩ := hnd
    have hne : ¬ v = endVer e.hash es := by
      intro hcontra
      exact hvnot (hcontra ▸ endVer_mem es e.hash)
    cases fuel with
    | zero => simp at hfuel
    | succ fuel =>
      have hfind : (pre ++ e :: es).find? (fun x => x.previous_version_id = v) = some e := by
        have h1 : pre.find? (fun x => x.previous_version_id = v) = none := by
          rw [List.find?_eq_none]
          intro x hx
          simp only [decide_eq_true_eq]
          intro hxv
          exact hpre x hx (by simp [stepVers, hxv])
        rw [find?_append_of_none h1]
        exact List.find?_cons_of_pos _ (by simp [hprev])
      have happ : applyPatch t e.diff = some e.diff.modified := by
        simp [applyPatch, horig]
      have hstep :
          gavWalk (pre ++ e :: es) (endVer e.hash es) (fuel + 1) v t =
            gavWalk (pre ++ e :: es) (endVer e.hash es) fuel e.hash e.diff.modified := by
        simp only [gavWalk, if_neg hne, hfind, happ]
      have hpre2 : ∀ x ∈ pre ++ [e], x.previous_version_id ∉ stepVers e.hash es := by
        intro x hx
        rcases List.mem_append.1 hx with hx1 | hx2
        · intro hmem
          exact hpre x hx1 (by simp [stepVers, List.mem_cons]; exact Or.inr hmem)
        · have hxe : x = e := by simpa using hx2
          rw [hxe, hprev]
          intro hmem
          exact hvnot (stepVers_subset es e.hash v hmem)
      have hfuel2 : es.length ≤ fuel := by simpa using hfuel
      have := ih (pre ++ [e]) e.hash e.diff.modified fuel hrest hndtail hpre2 hfuel2
      rw [List.append_assoc] at this
      simp only [List.singleton_append] at this
      rw [endVer_cons, endText_cons, hstep]
      exact this

theorem generate_article_version_of_chain (es : List DbEdit)
    (hchain : chainFrom EditVersion.default "" es = true)
    (hnd : (vchain EditVersion.default es).Nodup) :
    generate_article_version es (endVer EditVersion.default es) = some (endText "" es) := by
  have := gavWalk_chain es [] EditVersion.default "" es.length hchain hnd
    (by intro e he; simp at he) le_rfl
  simpa [generate_article_version] using this

/-! ## Lemmas: replay, chain walk and invariant preservation -/

theorem DbArticle.read_mem {id : Nat} {s : State} {a : DbArticle}
    (h : DbArticle.read id s = some a) : a ∈ s.articles :=
  List.mem_of_find?_eq_some h

theorem DbArticle.read_id {id : Nat} {s : State} {a : DbArticle}
    (h : DbArticle.read id s = some a) : a.id = id := by
  have := List.find?_some h
  simpa using this

theorem DbEdit.read_hash {v : EditVersion} {s : State} {e : DbEdit}
    (h : DbEdit.read v s = some e) : e.hash = v := by
  have := List.find?_some h
  simpa using this

theorem DbConflict.delete_state {id : Nat} {s : State} {x : DbConflict} {s2 : State}
    (h : DbConflict.delete id s = .ok (x, s2)) :
    s2 = { s with conflicts := s.conflicts.filter (fun c => ¬ c.id = id) } := by
  unfold DbConflict.delete at h
  cases hf : s.conflicts.find? (fun c => c.id = id) with
  | none => rw [hf] at h; cases h
  | some c0 =>
    rw [hf] at h
    simp only [Except.ok.injEq, Prod.mk.injEq] at h
    exact h.2.symm

theorem Inv_conflicts_set {s : State} (hinv : Inv s) (cs : List DbConflict) (n : Nat)
    (hbound : ∀ c ∈ cs, c.id < n) :
    Inv { s with conflicts := cs, nextConflictId := n } := by
  obtain ⟨hrep, haid, heid, _⟩ := hinv
  exact ⟨hrep, haid, heid, hbound⟩

theorem Inv_conflicts_filter {s : State} (hinv : Inv s) (p : DbConflict → Bool) :
    Inv { s with conflicts := s.conflicts.filter p } := by
  obtain ⟨hrep, haid, heid, hcid⟩ := hinv
  refine ⟨hrep, haid, heid, ?_⟩
  intro c hc
  exact hcid c (List.mem_of_mem_filter hc)

theorem Inv_conflict_create {s : State} (hinv : Inv s) (f : DbConflictForm) :
    Inv (DbConflict.create f s).2 := by
  obtain ⟨hrep, haid, heid, hcid⟩ := hinv
  refine ⟨hrep, haid, heid, ?_⟩
  intro c hc
  simp only [DbConflict.create, List.mem_append, List.mem_singleton] at hc
  rcases hc with hc | hc
  · exact Nat.lt_succ_of_lt (hcid c hc)
  · subst hc; exact Nat.lt_succ_self _

theorem Inv_submit {s : State} {a : DbArticle} (hinv : Inv s) (ha : a ∈ s.articles)
    (nt sm : String) (pv : EditVersion) (cr : Nat) :
    Inv (submit_article_update nt sm pv a cr s) := by
  obtain ⟨hrep, haid, heid, hcid⟩ := hinv
  by_cases hl : a.localFlag = true
  case neg =>
    simp only [submit_article_update, hl, if_false, Bool.false_eq_true]
    exact ⟨hrep, haid, heid, hcid⟩
  case pos =>
    simp only [submit_article_update, hl, if_true, DbEdit.create, DbArticle.update_text]
    refine ⟨?_, ?_, ?_, hcid⟩
    · intro b2 hb2
      simp only [List.mem_map] at hb2
      obtain ⟨b, hb, rfl⟩ := hb2
      by_cases hid : b.id = a.id
      · have hbtext : b.text = a.text := by
          have h1 := hrep b hb
          have h2 := hrep a ha
          rw [show DbEdit.list_for_article b.id s = DbEdit.list_for_article a.id s by rw [hid]] at h1
          rw [h1] at h2
          exact Option.some.inj h2
        have h1 := hrep b hb
        simp only [DbEdit.list_for_article, hid, replay] at h1
        simp [DbEdit.list_for_article, List.filter_append, hid, replay, replayFold_append,
          h1, replayFold, applyPatch, create_patch, hbtext]
      · simp only [if_neg hid, DbEdit.list_for_article, List.filter_append]
        have h1 := hrep b hb
        simp only [DbEdit.list_for_article, replay] at h1
        have hid2 : ¬ a.id = b.id := fun h => hid h.symm
        simp [replay, replayFold_append, h1, hid2, replayFold]
    · intro b2 hb2
      simp only [List.mem_map] at hb2
      obtain ⟨b, hb, rfl⟩ := hb2
      by_cases hid : b.id = a.id
      · simpa [if_pos hid, hid] using haid a ha
      · simpa [if_neg hid] using haid b hb
    · intro e he
      simp only [List.mem_append, List.mem_singleton] at he
      rcases he with he | he
      · exact heid e he
      · subst he; simpa using haid a ha

theorem Inv_to_api_conflict (cfg : Config) (c : DbConflict) {s : State} (hinv : Inv s) :
    Inv (DbConflict.to_api_conflict cfg c s).1 := by
  unfold DbConflict.to_api_conflict
  split
  · exact hinv
  next article hr =>
    try dsimp only
    split
    · exact hinv
    · try dsimp only
      split
      · exact hinv
      next ancestor hg =>
        try dsimp only
        split
        · exact hinv
        next ours happ =>
          try dsimp only
          split
          next new_text hm =>
            try dsimp only
            have hmem := DbArticle.read_mem hr
            have hs2 := Inv_submit hinv hmem new_text c.summary c.previous_version_id c.creator_id
            split
            next e hd => exact hs2
            next x s3 hd =>
              rw [DbConflict.delete_state hd]
              exact Inv_conflicts_filter hs2 _
          next tw hm => exact hinv

theorem Inv_edit_article_checked (cfg : Config) (u : UserCtx) (f : EditArticleForm)
    {a : DbArticle} {s : State} (hinv : Inv s)
    (hread : DbArticle.read f.article_id s = some a) :
    Inv (edit_article_checked cfg u f a s).1 := by
  unfold edit_article_checked
  repeat' (first | split | (dsimp only; split))
  all_goals first
    | exact hinv
    | exact Inv_submit hinv (DbArticle.read_mem hread) _ _ _ _
    | exact Inv_to_api_conflict cfg _ (Inv_conflict_create hinv _)

theorem Inv_edit_article (cfg : Config) (u : UserCtx) (f : EditArticleForm)
    {s : State} (hinv : Inv s) : Inv (edit_article cfg u f s).1 := by
  unfold edit_article
  split
  next cid =>
    split
    · exact hinv
    next x s1 hd =>
      have h1 : Inv s1 := by
        rw [DbConflict.delete_state hd]
        exact Inv_conflicts_filter hinv _
      split
      · exact h1
      next a hr => exact Inv_edit_article_checked cfg u f h1 hr
  · split
    · exact hinv
    next a hr => exact Inv_edit_article_checked cfg u f hinv hr

theorem DbArticle.create_state {form : DbArticleForm} {s : State} {article : DbArticle} {s1 : State}
    (h : DbArticle.create form s = .ok (article, s1)) :
    article =
      { id := s.nextArticleId
        title := replaceChar form.title ' ' '_'
        text := form.text
        ap_id := form.ap_id
        instance_id := form.instance_id
        localFlag := form.localFlag
        protectedFlag := form.protectedFlag
        approved := form.approved }
    ∧ s1 = { s with articles := s.articles ++ [article], nextArticleId := s.nextArticleId + 1 } := by
  unfold DbArticle.create at h
  split at h
  · cases h
  · simp only [Except.ok.injEq, Prod.mk.injEq] at h
    obtain ⟨h1, h2⟩ := h
    subst h1
    exact ⟨rfl, h2.symm⟩

theorem filter_article_fresh {edits : List DbEdit} {n : Nat}
    (hbound : ∀ e ∈ edits, e.article_id < n) :
    edits.filter (fun e => e.article_id = n) = [] := by
  rw [List.filter_eq_nil_iff]
  intro e he
  simp only [decide_eq_true_eq]
  exact Nat.ne_of_lt (hbound e he)

theorem Inv_article_create_empty {s : State} {form : DbArticleForm} {article : DbArticle}
    {s1 : State} (hinv : Inv s) (h : DbArticle.create form s = .ok (article, s1))
    (ht : form.text = "") : Inv s1 := by
  obtain ⟨hrep, haid, heid, hcid⟩ := hinv
  obtain ⟨ha, hs⟩ := DbArticle.create_state h
  subst hs
  refine ⟨?_, ?_, ?_, hcid⟩
  · intro b hb
    simp only [List.mem_append, List.mem_singleton] at hb
    rcases hb with hb | hb
    · exact hrep b hb
    · subst hb
      rw [ha]
      simp only [DbEdit.list_for_article]
      rw [filter_article_fresh heid]
      simp [replay, replayFold, ht]
  · intro b hb
    simp only [List.mem_append, List.mem_singleton] at hb
    rcases hb with hb | hb
    · exact Nat.lt_succ_of_lt (haid b hb)
    · subst hb; rw [ha]; exact Nat.lt_succ_self _
  · intro e he
    exact Nat.lt_succ_of_lt (heid e he)

theorem Inv_create_article (cfg : Config) (u : UserCtx) (f : CreateArticleForm)
    {s : State} (hinv : Inv s) : Inv (create_article cfg u f s).1 := by
  unfold create_article
  split
  · exact hinv
  split
  · exact hinv
  dsimp only
  split
  · exact hinv
  next article s1 hok =>
    have h1 : Inv s1 := Inv_article_create_empty hinv hok rfl
    split
    next s2 e heq =>
      have := Inv_edit_article cfg u
        { article_id := article.id, new_text := f.text, summary := f.summary,
          previous_version_id := DbArticle.latest_edit_version article s1,
          resolve_conflict_id := none } h1
      rw [heq] at this
      exact this
    next s2 r heq =>
      have := Inv_edit_article cfg u
        { article_id := article.id, new_text := f.text, summary := f.summary,
          previous_version_id := DbArticle.latest_edit_version article s1,
          resolve_conflict_id := none } h1
      rw [heq] at this
      exact this

theorem forkCopyEdits_spec (art : DbArticle) :
    ∀ (es : List DbEdit) (st : State),
      ∃ copies : List DbEdit,
        forkCopyEdits art es st =
          { st with edits := st.edits ++ copies, nextEditId := st.nextEditId + es.length }
        ∧ (∀ x ∈ copies, x.article_id = art.id)
        ∧ copies.map (fun e => e.diff) = es.map (fun e => e.diff)
        ∧ copies.map (fun e => (e.hash, e.diff, e.summary, e.creator_id, e.previous_version_id))
            = es.map (fun e => (e.hash, e.diff, e.summary, e.creator_id, e.previous_version_id)) := by
  intro es
  induction es with
  | nil =>
    intro st
    refine ⟨[], ?_, ?_, ?_, ?_⟩ <;> simp [forkCopyEdits]
  | cons e es ih =>
    intro st
    obtain ⟨copies, heq, hart, hdiff, hproj⟩ :=
      ih { st with
            edits := st.edits ++
              [{ id := st.nextEditId, creator_id := e.creator_id, hash := e.hash,
                 ap_id := art.ap_id ++ "/" ++ e.hash.hash, diff := e.diff, summary := e.summary,
                 article_id := art.id, previous_version_id := e.previous_version_id,
                 published := 0 }],
            nextEditId := st.nextEditId + 1 }
    refine ⟨{ id := st.nextEditId, creator_id := e.creator_id, hash := e.hash,
              ap_id := art.ap_id ++ "/" ++ e.hash.hash, diff := e.diff, summary := e.summary,
              article_id := art.id, previous_version_id := e.previous_version_id,
              published := 0 } :: copies, ?_, ?_, ?_, ?_⟩
    · show forkCopyEdits art es
          { st with
            edits := st.edits ++
              [{ id := st.nextEditId, creator_id := e.creator_id, hash := e.hash,
                 ap_id := art.ap_id ++ "/" ++ e.hash.hash, diff := e.diff, summary := e.summary,
                 article_id := art.id, previous_version_id := e.previous_version_id,
                 published := 0 }],
            nextEditId := st.nextEditId + 1 } = _
      rw [heq]
      simp [List.append_assoc, List.singleton_append, Nat.add_assoc, Nat.add_comm 1 es.length]
    · intro x hx
      rcases List.mem_cons.1 hx with hx | hx
      · subst hx; rfl
      · exact hart x hx
    · simpa using hdiff
    · simpa using hproj

theorem Inv_fork_article (cfg : Config) (u : UserCtx) (f : ForkArticleForm)
    {s : State} (hinv : Inv s) : Inv (fork_article cfg u f s).1 := by
  unfold fork_article
  split
  · exact hinv
  next original hr =>
    dsimp only
    split
    · exact hinv
    next article s1 hok =>
      obtain ⟨hrep, haid, heid, hcid⟩ := hinv
      obtain ⟨ha, hs⟩ := DbArticle.create_state hok
      subst hs
      obtain ⟨copies, heq, hart, hdiff, hproj⟩ :=
        forkCopyEdits_spec article (DbEdit.list_for_article original.id
          { s with articles := s.articles ++ [article], nextArticleId := s.nextArticleId + 1 })
          { s with articles := s.articles ++ [article], nextArticleId := s.nextArticleId + 1 }
      simp only [heq]
      have hartid : article.id = s.nextArticleId := by rw [ha]
      have hmem := DbArticle.read_mem hr
      refine ⟨?_, ?_, ?_, hcid⟩
      · intro b hb
        simp only [List.mem_append, List.mem_singleton] at hb
        have hcopies_ne : ∀ (bid : Nat), ¬ bid = s.nextArticleId →
            copies.filter (fun e => e.article_id = bid) = [] := by
          intro bid hne
          rw [List.filter_eq_nil_iff]
          intro x hx
          simp only [decide_eq_true_eq]
          rw [hart x hx, hartid]
          exact fun hcon => hne hcon.symm
        rcases hb with hb | hb
        · have hbid : ¬ b.id = s.nextArticleId := Nat.ne_of_lt (haid b hb)
          simp only [DbEdit.list_for_article, List.filter_append]
          rw [hcopies_ne b.id hbid, List.append_nil]
          exact hrep b hb
        · subst hb
          simp only [DbEdit.list_for_article, List.filter_append, hartid]
          rw [filter_article_fresh heid]
          have hcopies_all : copies.filter (fun e => e.article_id = s.nextArticleId) = copies := by
            rw [List.filter_eq_self]
            intro x hx
            simp only [decide_eq_true_eq]
            rw [hart x hx, hartid]
          rw [hcopies_all, List.nil_append]
          have hes : replay (DbEdit.list_for_article original.id
              { s with articles := s.articles ++ [b], nextArticleId := s.nextArticleId + 1 })
              = some original.text := hrep original hmem
          have : replay copies = replay (DbEdit.list_for_article original.id
              { s with articles := s.articles ++ [b],
                       nextArticleId := s.nextArticleId + 1 }) := by
            exact replayFold_congr hdiff ""
          rw [this, hes, ha]
      · intro b hb
        simp only [List.mem_append, List.mem_singleton] at hb
        rcases hb with hb | hb
        · exact Nat.lt_succ_of_lt (haid b hb)
        · subst hb; rw [hartid]; exact Nat.lt_succ_self _
      · intro e he
        simp only [List.mem_append] at he
        rcases he with he | he
        · exact Nat.lt_succ_of_lt (heid e he)
        · rw [hart e he, hartid]; exact Nat.lt_succ_self _

theorem Inv_delete_conflict (u : UserCtx) (f : DeleteConflictForm) {s : State} (hinv : Inv s) :
    Inv (delete_conflict u f s).1 := by
  unfold delete_conflict
  split
  · exact hinv
  next x s1 hd =>
    rw [DbConflict.delete_state hd]
    exact Inv_conflicts_filter hinv _

theorem Inv_protect_article (u : UserCtx) (f : ProtectArticleForm) {s : State} (hinv : Inv s) :
    Inv (protect_article u f s).1 := by
  unfold protect_article
  split
  · obtain ⟨hrep, haid, heid, hcid⟩ := hinv
    refine ⟨?_, ?_, heid, hcid⟩
    · intro b2 hb2
      simp only [DbArticle.update_protected, List.mem_map] at hb2
      obtain ⟨b, hb, rfl⟩ := hb2
      by_cases hid : b.id = f.article_id
      · simp only [if_pos hid, DbEdit.list_for_article]
        have h1 := hrep b hb
        simp only [DbEdit.list_for_article] at h1
        simpa using h1
      · simp only [if_neg hid, DbEdit.list_for_article]
        have h1 := hrep b hb
        simpa only [DbEdit.list_for_article] using h1
    · intro b2 hb2
      simp only [DbArticle.update_protected, List.mem_map] at hb2
      obtain ⟨b, hb, rfl⟩ := hb2
      by_cases hid : b.id = f.article_id
      · simpa [if_pos hid] using haid b hb
      · simpa [if_neg hid] using haid b hb
  · exact hinv

theorem Inv_empty : Inv State.empty := by
  refine ⟨?_, ?_, ?_, ?_⟩ <;> intro x hx <;> simp [State.empty] at hx

theorem Inv_applyOp (cfg : Config) (op : Op) {s : State} (hinv : Inv s) :
    Inv (applyOp cfg s op) := by
  cases op with
  | createArticle u f => exact Inv_create_article cfg u f hinv
  | editArticle u f => exact Inv_edit_article cfg u f hinv
  | forkArticle u f => exact Inv_fork_article cfg u f hinv
  | deleteConflict u f => exact Inv_delete_conflict u f hinv
  | protectArticle u f => exact Inv_protect_article u f hinv

theorem Inv_foldl (cfg : Config) :
    ∀ (ops : List Op) (s : State), Inv s → Inv (List.foldl (applyOp cfg) s ops) := by
  intro ops
  induction ops with
  | nil => intro s h; exact h
  | cons op ops ih => intro s h; exact ih _ (Inv_applyOp cfg op h)

theorem Inv_run (cfg : Config) (ops : List Op) : Inv (run cfg ops) :=
  Inv_foldl cfg ops State.empty Inv_empty

/-! ## Lemmas: hex encoding -/

theorem sha256_length (msg : List Nat) : (sha256 msg).length = 32 := by
  simp [sha256, word4]

theorem editversion_bytes_length (d : String) : (EditVersion.new d).bytes.length = 16 := by
  simp [EditVersion.new, List.length_take, sha256_length]

theorem flatten_pairs_length (bs : List Nat) :
    ((bs.map (fun b => [hexDigit (b / 16), hexDigit b])).flatten).length = 2 * bs.length := by
  induction bs with
  | nil => rfl
  | cons b bs ih =>
    simp only [List.map_cons, List.flatten_cons, List.length_append, List.length_cons,
      List.length_nil, ih]
    omega

theorem hexEncode_length (bs : List Nat) : (hexEncode bs).length = 2 * bs.length :=
  flatten_pairs_length bs

theorem hexDigit_mem (n : Nat) : hexDigit n ∈ "0123456789abcdef".data := by
  have h : n % 16 < 16 := Nat.mod_lt _ (by norm_num)
  unfold hexDigit
  have h16 : ("0123456789abcdef".toList).length = 16 := by decide
  rw [List.getD_eq_getElem?_getD, List.getElem?_eq_getElem (by rw [h16]; exact h)]
  exact List.getElem_mem _

theorem hexEncode_mem {bs : List Nat} {ch : Char} (h : ch ∈ (hexEncode bs).data) :
    ch ∈ "0123456789abcdef".data := by
  simp only [hexEncode] at h
  rw [List.mem_flatten] at h
  obtain ⟨l, hl, hch⟩ := h
  rw [List.mem_map] at hl
  obtain ⟨b, _, rfl⟩ := hl
  rcases List.mem_pair.1 hch with rfl | rfl
  · exact hexDigit_mem _
  · exact hexDigit_mem _

/-! ## Claim theorems -/

/-- C7: `EditVersion` hashing is a pure function of the diff text: hashing the
same diff twice yields the same value, namely the first 16 bytes of the
SHA-256 digest, hex-encoded to a 32-character lowercase hex string;
`EditVersion::default` is the hash of the empty string
`e3b0c44298fc1c149afbf4c8996fb924`, and hashing `"test"` yields
`9f86d081884c7d659a2feaa0c55ad015`. -/
theorem c7_editversion_pure (d : String) :
    EditVersion.new d = EditVersion.new d
    ∧ (EditVersion.new d).bytes = (sha256 (strBytes d)).take 16
    ∧ (EditVersion.new d).bytes.length = 16
    ∧ (EditVersion.new d).hash.length = 32
    ∧ (∀ ch ∈ (EditVersion.new d).hash.data, ch ∈ "0123456789abcdef".data)
    ∧ EditVersion.default = EditVersion.new ""
    ∧ EditVersion.default.hash = "e3b0c44298fc1c149afbf4c8996fb924"
    ∧ (EditVersion.new "test").hash = "9f86d081884c7d659a2feaa0c55ad015" := by
  refine ⟨rfl, rfl, editversion_bytes_length d, ?_, ?_, rfl, by decide, by decide⟩
  · show (hexEncode (EditVersion.new d).bytes).length = 32
    rw [hexEncode_length, editversion_bytes_length]
  · intro ch hch
    exact hexEncode_mem hch

/-- Witness for C7 at the concrete diff `"test"`. -/
theorem c7_editversion_pure_witness :
    (EditVersion.new "test").hash = "9f86d081884c7d659a2feaa0c55ad015"
    ∧ (EditVersion.new "test").hash.length = 32 :=
  ⟨(c7_editversion_pure "test").2.2.2.2.2.2.2, (c7_editversion_pure "test").2.2.2.1⟩

/-- C5 counterexample: `read_followers` does not filter on `pending`, so a
follower whose follow edge is still pending is delivered to, while the
claimed `pending = false` inbox set is empty. -/
theorem c5_counterexample :
    DbInstance.send_to_followers_inboxes localInstance [] fedDbPending
      = ["http://other.example/user/alice/inbox"]
    ∧ sendToFollowersSpecInboxes localInstance [] fedDbPending = []
    ∧ ¬ DbInstance.send_to_followers_inboxes localInstance [] fedDbPending
        = sendToFollowersSpecInboxes localInstance [] fedDbPending := by
  refine ⟨by decide, by decide, by decide⟩

/-- C5 amended: the delivery inbox list consists of the inboxes of all
followers of the instance regardless of the `pending` flag, plus the extra
recipients; it agrees with the spec's `pending = false` description exactly
on states where every follow edge is established. -/
theorem c5_send_to_followers_amended (inst : DbInstance) (extra : List DbInstance) (db : FedDb)
    (h : ∀ f ∈ db.follows, f.pending = false) :
    DbInstance.send_to_followers_inboxes inst extra db
      = sendToFollowersSpecInboxes inst extra db := by
  unfold DbInstance.send_to_followers_inboxes sendToFollowersSpecInboxes DbInstance.read_followers
  have : db.follows.filter (fun f => f.instance_id = inst.id)
      = db.follows.filter (fun f => f.instance_id = inst.id ∧ f.pending = false) := by
    apply List.filter_congr
    intro f hf
    simp [h f hf]
  rw [this]

/-- Witness for C5 on a database whose only follow edge is established. -/
theorem c5_send_to_followers_amended_witness :
    DbInstance.send_to_followers_inboxes localInstance [remoteInstance] fedDbEstablished
      = sendToFollowersSpecInboxes localInstance [remoteInstance] fedDbEstablished :=
  c5_send_to_followers_amended localInstance [remoteInstance] fedDbEstablished (by decide)

/-- C9 counterexample: `Announce` is not among the kinds of the closed
inbound dispatch union `InboxActivities` (which the amended theorem shows to
be exactly `inboxKinds`), so Announce is not receivable through it. -/
theorem c9_counterexample :
    ActivityKind.announce ∉ inboxKinds
    ∧ InboxActivities.kind (InboxActivities.follow ⟨"", "", ""⟩) ∈ inboxKinds := by
  refine ⟨by decide, by decide⟩

/-- C9 amended: the six activity kinds Follow, Accept, CreateArticle,
UpdateLocalArticle, UpdateRemoteArticle and RejectEdit are exactly the kinds
receivable through the closed dispatch union, while `Announce` is handled by
its own `ActivityHandler` whose `receive` verifies the wrapped activity
before receiving it, so a wrapped activity that fails verification causes no
state change. -/
theorem c9_inbox_dispatch_amended :
    (∀ a : InboxActivities, a.kind ∈ inboxKinds)
    ∧ (∀ k ∈ inboxKinds, ∃ a : InboxActivities, a.kind = k)
    ∧ (∀ (σ : Type) (ann : AnnounceActivity σ) (st : σ),
        ann.object.verifyOk st = false →
          handleAnnounce ann st = st ∧ ann.receive st = .error ())
    ∧ (∀ (σ : Type) (ann : AnnounceActivity σ) (st : σ),
        ann.object.verifyOk st = true →
          handleAnnounce ann st = ann.object.receiveFn st) := by
  refine ⟨?_, ?_, ?_, ?_⟩
  · intro a; cases a <;> simp [InboxActivities.kind, inboxKinds]
  · intro k hk
    simp only [inboxKinds, List.mem_cons, List.mem_singleton] at hk
    rcases hk with rfl | rfl | rfl | rfl | rfl | rfl | hk
    · exact ⟨.follow ⟨"", "", ""⟩, rfl⟩
    · exact ⟨.accept ⟨"", ⟨"", "", ""⟩, ""⟩, rfl⟩
    · exact ⟨.createArticle ⟨"", [], "", ""⟩, rfl⟩
    · exact ⟨.updateLocalArticle ⟨"", "", ""⟩, rfl⟩
    · exact ⟨.updateRemoteArticle ⟨"", "", ""⟩, rfl⟩
    · exact ⟨.rejectEdit ⟨"", "", ""⟩, rfl⟩
    · simp at hk
  · intro σ ann st h
    constructor <;> simp [handleAnnounce, AnnounceActivity.receive, h]
  · intro σ ann st h
    simp [handleAnnounce, AnnounceActivity.receive, h]

/-- Witness for C9: a concrete announce whose wrapped activity fails
verification leaves the state unchanged. -/
theorem c9_inbox_dispatch_amended_witness :
    handleAnnounce
      (⟨"http://example.com", [], ⟨fun _ => false, fun n => n + 1⟩, "http://example.com/a/1"⟩ :
        AnnounceActivity Nat) 7 = 7
    ∧ ∃ a : InboxActivities, a.kind = ActivityKind.follow :=
  ⟨(c9_inbox_dispatch_amended.2.2.1 Nat _ 7 rfl).1,
    c9_inbox_dispatch_amended.2.1 ActivityKind.follow (by decide)⟩

/-- C6: `DbConflict::delete` is keyed by the conflict id only and never
checks the caller against the conflict's creator, so a requester other than
the creator (person 2 here, creator is person 1) succeeds in deleting the
record, where the claim requires an authorization failure with the record
unchanged. -/
theorem c6_delete_conflict_no_auth_check :
    (delete_conflict ⟨2, false⟩ ⟨0⟩ conflictState).2 = .ok ()
    ∧ (delete_conflict ⟨2, false⟩ ⟨0⟩ conflictState).1.conflicts = [] := by
  refine ⟨by decide, by decide⟩

theorem submit_conflicts_unchanged (nt sm : String) (pv : EditVersion) (a : DbArticle)
    (cr : Nat) (s : State) :
    (submit_article_update nt sm pv a cr s).conflicts = s.conflicts := by
  unfold submit_article_update
  split <;> simp [DbEdit.create, DbArticle.update_text]

/-- Branch behavior of `DbConflict::to_api_conflict` (shared helper). -/
theorem to_api_conflict_branches (cfg : Config) (c : DbConflict) (s : State) (article : DbArticle)
    (hread : DbArticle.read c.article_id s = some article)
    (hlocal : article.localFlag = true)
    (hc : c ∈ s.conflicts)
    (ancestor : String)
    (hgen : generate_article_version (DbEdit.read_for_article article s) c.previous_version_id
      = some ancestor)
    (ours : String) (happ : applyPatch ancestor c.diff = some ours) :
    (∀ new_text, cfg.mergeFn ancestor ours article.text = .ok new_text →
      DbConflict.to_api_conflict cfg c s =
        ({ (submit_article_update new_text c.summary c.previous_version_id article
              c.creator_id s) with
            conflicts := s.conflicts.filter (fun x => ¬ x.id = c.id) },
         .ok none))
    ∧ (∀ tw, cfg.mergeFn ancestor ours article.text = .error tw →
        DbConflict.to_api_conflict cfg c s =
          (s, .ok (some
            { id := c.id, hash := c.hash, three_way_merge := tw,
              summary := c.summary, article := article,
              previous_version_id := DbArticle.latest_edit_version article s }))
        ∧ c ∈ (DbConflict.to_api_conflict cfg c s).1.conflicts) := by
  constructor
  · intro new_text hm
    unfold DbConflict.to_api_conflict
    rw [hread]
    dsimp only
    rw [if_neg (by simp [hlocal])]
    rw [hgen]
    dsimp only
    rw [happ]
    dsimp only
    rw [hm]
    dsimp only
    have hsc : (submit_article_update new_text c.summary c.previous_version_id article
        c.creator_id s).conflicts = s.conflicts := submit_conflicts_unchanged _ _ _ _ _ _
    have hex : ∃ x, s.conflicts.find? (fun y => y.id = c.id) = some x := by
      rw [← Option.isSome_iff_exists]
      exact List.find?_isSome.2 ⟨c, hc, by simp⟩
    obtain ⟨x, hx⟩ := hex
    have hdel : DbConflict.delete c.id (submit_article_update new_text c.summary
        c.previous_version_id article c.creator_id s) =
        .ok (x, { (submit_article_update new_text c.summary c.previous_version_id article
              c.creator_id s) with
            conflicts := s.conflicts.filter (fun y => ¬ y.id = c.id) }) := by
      unfold DbConflict.delete
      rw [hsc, hx]
    rw [hdel]
  · intro tw hm
    have hfull : DbConflict.to_api_conflict cfg c s =
        (s, .ok (some
          { id := c.id, hash := c.hash, three_way_merge := tw,
            summary := c.summary, article := article,
            previous_version_id := DbArticle.latest_edit_version article s })) := by
      unfold DbConflict.to_api_conflict
      rw [hread]
      dsimp only
      rw [if_neg (by simp [hlocal])]
      rw [hgen]
      dsimp only
      rw [happ]
      dsimp only
      rw [hm]
    exact ⟨hfull, by rw [hfull]; exact hc⟩

/-- C3: resolving a stored conflict reconstructs the ancestor at the
conflict's previous version from the origin's edit history, applies the
stored diff to obtain the submitter's intended text, and three-way-merges
it with the origin's current text: a clean merge commits the merged text
against the origin, deletes the conflict row and returns `none`; a merge
conflict returns a descriptor whose `previous_version_id` is the origin's
current latest version, and the conflict row persists. -/
theorem c3_to_api_conflict_spec (cfg : Config) (c : DbConflict) (s : State) (article : DbArticle)
    (hread : DbArticle.read c.article_id s = some article)
    (hlocal : article.localFlag = true)
    (hc : c ∈ s.conflicts)
    (ancestor : String)
    (hgen : generate_article_version (DbEdit.read_for_article article s) c.previous_version_id
      = some ancestor)
    (ours : String) (happ : applyPatch ancestor c.diff = some ours) :
    (∀ new_text, cfg.mergeFn ancestor ours article.text = .ok new_text →
      DbConflict.to_api_conflict cfg c s =
        ({ (submit_article_update new_text c.summary c.previous_version_id article
              c.creator_id s) with
            conflicts := s.conflicts.filter (fun x => ¬ x.id = c.id) },
         .ok none))
    ∧ (∀ tw, cfg.mergeFn ancestor ours article.text = .error tw →
        DbConflict.to_api_conflict cfg c s =
          (s, .ok (some
            { id := c.id, hash := c.hash, three_way_merge := tw,
              summary := c.summary, article := article,
              previous_version_id := DbArticle.latest_edit_version article s }))
        ∧ c ∈ (DbConflict.to_api_conflict cfg c s).1.conflicts) :=
  to_api_conflict_branches cfg c s article hread hlocal hc ancestor hgen ours happ

/-- Witness for C3: on overlapping changes the merge conflicts, the stored
row persists, and the descriptor points at the origin's latest version. -/
theorem c3_to_api_conflict_spec_witness :
    DbConflict.to_api_conflict cfg0 ⟨0, ⟨[2]⟩, ⟨"", "C\n"⟩, "s2", 1, 0, EditVersion.default⟩ c3State
      = (c3State, .ok (some
        { id := 0, hash := ⟨[2]⟩,
          three_way_merge := "<<<<<<< ours\nC\n=======\nB\n>>>>>>> theirs\n",
          summary := "s2", article := c3Article,
          previous_version_id := DbArticle.latest_edit_version c3Article c3State }))
    ∧ (⟨0, ⟨[2]⟩, ⟨"", "C\n"⟩, "s2", 1, 0, EditVersion.default⟩ : DbConflict)
        ∈ (DbConflict.to_api_conflict cfg0
            ⟨0, ⟨[2]⟩, ⟨"", "C\n"⟩, "s2", 1, 0, EditVersion.default⟩ c3State).1.conflicts :=
  (c3_to_api_conflict_spec cfg0 _ c3State c3Article (by decide) (by decide) (by decide)
    "" (by decide) "C\n" (by decide)).2
    "<<<<<<< ours\nC\n=======\nB\n>>>>>>> theirs\n" (by decide)

theorem ne_self_append_newline (x : String) : ¬ x = x ++ "\n" := by
  intro h
  have h2 := congrArg String.length h
  rw [String.length_append] at h2
  have h3 : ("\n" : String).length = 1 := rfl
  omega

/-- C10: a submission whose text differs from the article's current text only
by lacking the final trailing newline is not rejected as a no-op: the
equality check runs before the newline is appended and before Markdown
formatting, so the edit is accepted and committed, with the newline appended
before formatting. -/
theorem c10_trailing_newline_not_noop (cfg : Config) (u : UserCtx) (f : EditArticleForm)
    (s : State) (a : DbArticle) (ft : String)
    (hres : f.resolve_conflict_id = none)
    (hread : DbArticle.read f.article_id s = some a)
    (htext : a.text = f.new_text ++ "\n")
    (hnl : ¬ endsWithChar f.new_text '\n' = true)
    (hsum : ¬ f.summary = "")
    (hedit : can_edit_article a u.admin = .ok ())
    (hlink : ¬ strContains (f.new_text ++ "\n") ("](https://" ++ cfg.domain) = true)
    (hfmt : cfg.fmt (f.new_text ++ "\n") = some ft)
    (hprev : f.previous_version_id = DbArticle.latest_edit_version a s)
    (hlocal : a.localFlag = true) :
    edit_article cfg u f s
      = (submit_article_update ft f.summary f.previous_version_id a u.person_id s, .ok none)
    ∧ (edit_article cfg u f s).1.edits = s.edits ++
        [{ id := s.nextEditId, creator_id := u.person_id,
           hash := EditVersion.new (create_patch a.text ft).toText,
           ap_id := a.ap_id ++ "/" ++ (EditVersion.new (create_patch a.text ft).toText).hash,
           diff := create_patch a.text ft, summary := f.summary, article_id := a.id,
           previous_version_id := f.previous_version_id, published := 0 }]
    ∧ ¬ (edit_article cfg u f s).2 = .error .editNoChanges := by
  have hnoop : ¬ f.new_text = a.text := by
    rw [htext]; exact ne_self_append_newline f.new_text
  have hfull : edit_article cfg u f s
      = (submit_article_update ft f.summary f.previous_version_id a u.person_id s, .ok none) := by
    unfold edit_article
    rw [hres]
    dsimp only
    rw [hread]
    dsimp only
    unfold edit_article_checked
    rw [if_neg hnoop, if_neg hsum, hedit]
    dsimp only
    rw [if_neg hnl]
    rw [if_neg hlink, hfmt]
    dsimp only
    rw [if_pos hprev]
  refine ⟨hfull, ?_, ?_⟩
  · rw [hfull]
    unfold submit_article_update
    rw [if_pos hlocal]
    simp [DbEdit.create, DbArticle.update_text]
  · rw [hfull]
    simp

/-- Witness for C10 on a concrete submission lacking the trailing newline. -/
theorem c10_trailing_newline_not_noop_witness :
    edit_article cfg0 u0 ⟨0, "Hi", "s", EditVersion.default, none⟩ c10State
      = (submit_article_update "Hi\n" "s" EditVersion.default c10Article 1 c10State, .ok none) :=
  (c10_trailing_newline_not_noop cfg0 u0 ⟨0, "Hi", "s", EditVersion.default, none⟩ c10State
    c10Article "Hi\n" rfl (by decide) (by decide) (by decide) (by decide) (by decide)
    (by decide) (by decide) (by decide) (by decide)).1

/-- C4 amended: with no `resolve_conflict_id` supplied, every
ValidationError rejection (no-op text, empty summary, self-referential local
link) returns the state unchanged, and a no-op submission fails regardless
of the stated previous version; when a `resolve_conflict_id` is supplied the
named conflict is deleted before validation and stays deleted even though
the call is rejected. -/
theorem c4_validation_rejections (cfg : Config) (u : UserCtx) (f : EditArticleForm)
    (s : State) (a : DbArticle)
    (hres : f.resolve_conflict_id = none)
    (hread : DbArticle.read f.article_id s = some a) :
    (f.new_text = a.text → edit_article cfg u f s = (s, .error .editNoChanges))
    ∧ (¬ f.new_text = a.text → f.summary = "" →
        edit_article cfg u f s = (s, .error .noSummary))
    ∧ (¬ f.new_text = a.text → ¬ f.summary = "" → can_edit_article a u.admin = .ok () →
        strContains (if endsWithChar f.new_text '\n' = true then f.new_text
            else f.new_text ++ "\n") ("](https://" ++ cfg.domain) = true →
        edit_article cfg u f s = (s, .error .localLinks)) := by
  refine ⟨?_, ?_, ?_⟩
  · intro hnoop
    unfold edit_article
    rw [hres]
    dsimp only
    rw [hread]
    dsimp only
    unfold edit_article_checked
    rw [if_pos hnoop]
  · intro hnoop hsum
    unfold edit_article
    rw [hres]
    dsimp only
    rw [hread]
    dsimp only
    unfold edit_article_checked
    rw [if_neg hnoop, if_pos hsum]
  · intro hnoop hsum hedit hlink
    unfold edit_article
    rw [hres]
    dsimp only
    rw [hread]
    dsimp only
    unfold edit_article_checked
    rw [if_neg hnoop, if_neg hsum, hedit]
    dsimp only
    rw [if_pos hlink]

/-- C4 counterexample: a no-op submission carrying `resolve_conflict_id` is
rejected with the no-changes error, yet the named conflict has been deleted,
so the rejected call did change persistent state. -/
theorem c4_counterexample :
    (edit_article cfg0 u0 ⟨0, "b\n", "s2", ⟨[9]⟩, some 0⟩ c4State).2 = .error .editNoChanges
    ∧ (edit_article cfg0 u0 ⟨0, "b\n", "s2", ⟨[9]⟩, some 0⟩ c4State).1.conflicts = []
    ∧ ¬ (edit_article cfg0 u0 ⟨0, "b\n", "s2", ⟨[9]⟩, some 0⟩ c4State).1 = c4State := by
  refine ⟨by decide, by decide, by decide⟩

/-- Witness for C4 on a concrete no-op submission without a resolve id. -/
theorem c4_validation_rejections_witness :
    edit_article cfg0 u0 ⟨0, "b\n", "s2", ⟨[9]⟩, none⟩ c4State
      = (c4State, .error .editNoChanges) :=
  (c4_validation_rejections cfg0 u0 ⟨0, "b\n", "s2", ⟨[9]⟩, none⟩ c4State
    ⟨0, "T", "b\n", "http://example.com/article/T", 0, true, false, true⟩
    rfl (by decide)).1 rfl

theorem read_text_map_update {aid : Nat} {nt : String} (bid : Nat) (hne : ¬ bid = aid)
    (l : List DbArticle) :
    ((l.map (fun b => if b.id = aid then { b with text := nt } else b)).find?
        (fun b => b.id = bid)).map (fun x => x.text)
      = (l.find? (fun b => b.id = bid)).map (fun x => x.text) := by
  induction l with
  | nil => rfl
  | cons b l ih =>
    have hidpres : (if b.id = aid then ({ b with text := nt } : DbArticle) else b).id = b.id := by
      split <;> rfl
    by_cases hb : b.id = bid
    · have hp : ((if b.id = aid then ({ b with text := nt } : DbArticle) else b).id = bid) := by
        rw [hidpres]; exact hb
      rw [List.map_cons, List.find?_cons_of_pos _ (by simpa using hp),
        List.find?_cons_of_pos _ (by simp [hb])]
      have hba : ¬ b.id = aid := fun h => hne (hb ▸ h)
      rw [if_neg hba]
    · have hp : ¬ ((if b.id = aid then ({ b with text := nt } : DbArticle) else b).id = bid) := by
        rw [hidpres]; exact hb
      rw [List.map_cons, List.find?_cons_of_neg _ (by simpa using hp),
        List.find?_cons_of_neg _ (by simp [hb])]
      exact ih

theorem submit_frame (bid : Nat) (nt sm : String) (pv : EditVersion) (a : DbArticle)
    (cr : Nat) (s : State) (hne : ¬ bid = a.id) :
    DbEdit.list_for_article bid (submit_article_update nt sm pv a cr s)
      = DbEdit.list_for_article bid s
    ∧ (DbArticle.read bid (submit_article_update nt sm pv a cr s)).map (fun x => x.text)
        = (DbArticle.read bid s).map (fun x => x.text) := by
  unfold submit_article_update
  split
  · constructor
    · have hne2 : ¬ a.id = bid := fun h => hne h.symm
      simp [DbEdit.list_for_article, DbEdit.create, DbArticle.update_text, List.filter_append, hne2]
    · show ((DbArticle.update_text a.id nt _).articles.find? _).map _ = _
      simp only [DbArticle.update_text, DbArticle.read, DbEdit.create]
      exact read_text_map_update bid hne s.articles
  · exact ⟨rfl, rfl⟩

theorem to_api_frame (cfg : Config) (c : DbConflict) (s : State) (bid : Nat)
    (hne : ¬ bid = c.article_id) :
    DbEdit.list_for_article bid (DbConflict.to_api_conflict cfg c s).1
      = DbEdit.list_for_article bid s
    ∧ (DbArticle.read bid (DbConflict.to_api_conflict cfg c s).1).map (fun x => x.text)
        = (DbArticle.read bid s).map (fun x => x.text) := by
  unfold DbConflict.to_api_conflict
  split
  · exact ⟨rfl, rfl⟩
  next article hr =>
    have hne2 : ¬ bid = article.id := by
      rw [DbArticle.read_id hr]
      exact hne
    try dsimp only
    split
    · exact ⟨rfl, rfl⟩
    · try dsimp only
      split
      · exact ⟨rfl, rfl⟩
      next ancestor hg =>
        try dsimp only
        split
        · exact ⟨rfl, rfl⟩
        next ours happ =>
          try dsimp only
          split
          next new_text hm =>
            try dsimp only
            have hsub := submit_frame bid new_text c.summary c.previous_version_id article
              c.creator_id s hne2
            split
            next e hd => exact hsub
            next x s3 hd =>
              rw [DbConflict.delete_state hd]
              exact hsub
          next tw hm => exact ⟨rfl, rfl⟩

theorem edit_article_checked_frame (cfg : Config) (u : UserCtx) (f : EditArticleForm)
    (a : DbArticle) (st : State) (bid : Nat) (hne : ¬ bid = a.id) :
    DbEdit.list_for_article bid (edit_article_checked cfg u f a st).1
      = DbEdit.list_for_article bid st
    ∧ (DbArticle.read bid (edit_article_checked cfg u f a st).1).map (fun x => x.text)
        = (DbArticle.read bid st).map (fun x => x.text) := by
  unfold edit_article_checked
  repeat' (first | split | (dsimp only; split))
  all_goals first
    | exact ⟨rfl, rfl⟩
    | exact submit_frame bid _ _ _ _ _ _ hne
    | exact to_api_frame cfg _ _ bid hne

theorem edit_article_frame (cfg : Config) (u : UserCtx) (f : EditArticleForm)
    (st : State) (bid : Nat) (hne : ¬ bid = f.article_id) :
    DbEdit.list_for_article bid (edit_article cfg u f st).1
      = DbEdit.list_for_article bid st
    ∧ (DbArticle.read bid (edit_article cfg u f st).1).map (fun x => x.text)
        = (DbArticle.read bid st).map (fun x => x.text) := by
  unfold edit_article
  split
  next cid =>
    split
    · exact ⟨rfl, rfl⟩
    next x s1 hd =>
      have h1 : DbEdit.list_for_article bid s1 = DbEdit.list_for_article bid st
          ∧ (DbArticle.read bid s1).map (fun x => x.text)
              = (DbArticle.read bid st).map (fun x => x.text) := by
        rw [DbConflict.delete_state hd]
        exact ⟨rfl, rfl⟩
      split
      · exact h1
      next a hr =>
        have hne2 : ¬ bid = a.id := by
          rw [DbArticle.read_id hr]
          exact hne
        have h2 := edit_article_checked_frame cfg u f a s1 bid hne2
        exact ⟨h2.1.trans h1.1, h2.2.trans h1.2⟩
  · split
    · exact ⟨rfl, rfl⟩
    next a hr =>
      have hne2 : ¬ bid = a.id := by
        rw [DbArticle.read_id hr]
        exact hne
      exact edit_article_checked_frame cfg u f a st bid hne2

/-- C8: forking creates a new article carrying the source's current text
whose copied edit chain agrees with the source's chain at fork time in
hashes, diffs, summaries, creator attribution and previous-version pointers,
in order; the chains of all pre-existing articles are untouched, and any
later `edit_article` call against one article leaves every other article's
edit list and text unchanged. -/
theorem c8_fork_fidelity (cfg : Config) (u : UserCtx) (f : ForkArticleForm) (s : State)
    (original : DbArticle)
    (hread : DbArticle.read f.article_id s = some original)
    (hap : ∀ b ∈ s.articles, ¬ b.ap_id = "http://" ++ cfg.domain ++ "/article/" ++ f.new_title)
    (haid : ∀ b ∈ s.articles, b.id < s.nextArticleId)
    (heid : ∀ e ∈ s.edits, e.article_id < s.nextArticleId) :
    (∃ article : DbArticle,
      (fork_article cfg u f s).2 = .ok article
      ∧ article.text = original.text
      ∧ (DbEdit.list_for_article article.id (fork_article cfg u f s).1).map
            (fun e => (e.hash, e.diff, e.summary, e.creator_id, e.previous_version_id))
          = (DbEdit.list_for_article original.id s).map
            (fun e => (e.hash, e.diff, e.summary, e.creator_id, e.previous_version_id))
      ∧ ∀ b ∈ s.articles, DbEdit.list_for_article b.id (fork_article cfg u f s).1
          = DbEdit.list_for_article b.id s)
    ∧ (∀ (cfg2 : Config) (u2 : UserCtx) (f2 : EditArticleForm) (st : State) (bid : Nat),
        ¬ bid = f2.article_id →
        DbEdit.list_for_article bid (edit_article cfg2 u2 f2 st).1
            = DbEdit.list_for_article bid st
        ∧ (DbArticle.read bid (edit_article cfg2 u2 f2 st).1).map (fun x => x.text)
            = (DbArticle.read bid st).map (fun x => x.text)) := by
  constructor
  · have hany : (s.articles.any
        (fun a => a.ap_id = "http://" ++ cfg.domain ++ "/article/" ++ f.new_title)) = false := by
      rw [List.any_eq_false]
      intro b hb
      simpa using hap b hb
    unfold fork_article
    rw [hread]
    dsimp only
    split
    next e hcreate =>
      exfalso
      unfold DbArticle.create at hcreate
      rw [if_neg (by simp [hany])] at hcreate
      exact Except.noConfusion hcreate
    next article s1 hok =>
      obtain ⟨ha, hs⟩ := DbArticle.create_state hok
      subst hs
      obtain ⟨copies, heq, hart, hdiff, hproj⟩ :=
        forkCopyEdits_spec article (DbEdit.list_for_article original.id
          { s with articles := s.articles ++ [article], nextArticleId := s.nextArticleId + 1 })
          { s with articles := s.articles ++ [article], nextArticleId := s.nextArticleId + 1 }
      have hartid : article.id = s.nextArticleId := by rw [ha]
      refine ⟨article, rfl, by rw [ha], ?_, ?_⟩
      · show (DbEdit.list_for_article article.id (forkCopyEdits article _ _)).map _ = _
        rw [heq]
        simp only [DbEdit.list_for_article, List.filter_append, hartid]
        rw [filter_article_fresh heid]
        have hcopies_all : copies.filter (fun e => e.article_id = s.nextArticleId) = copies := by
          rw [List.filter_eq_self]
          intro x hx
          simp only [decide_eq_true_eq]
          rw [hart x hx, hartid]
        rw [hcopies_all, List.nil_append]
        exact hproj
      · intro b hb
        show DbEdit.list_for_article b.id (forkCopyEdits article _ _) = _
        rw [heq]
        simp only [DbEdit.list_for_article, List.filter_append]
        have hbid : ¬ b.id = s.nextArticleId := Nat.ne_of_lt (haid b hb)
        have hcopies_ne : copies.filter (fun e => e.article_id = b.id) = [] := by
          rw [List.filter_eq_nil_iff]
          intro x hx
          simp only [decide_eq_true_eq]
          rw [hart x hx, hartid]
          exact fun hcon => hbid hcon.symm
        rw [hcopies_ne, List.append_nil]
  · intro cfg2 u2 f2 st bid hne
    exact edit_article_frame cfg2 u2 f2 st bid hne

/-- Witness for C8: forking the one-article state yields an article with the
source text whose chain projection matches the source chain. -/
theorem c8_fork_fidelity_witness :
    ∃ article : DbArticle,
      (fork_article cfg0 u0 ⟨0, "F"⟩ c8State).2 = .ok article
      ∧ article.text = "B\n"
      ∧ (DbEdit.list_for_article article.id (fork_article cfg0 u0 ⟨0, "F"⟩ c8State).1).map
            (fun e => (e.hash, e.diff, e.summary, e.creator_id, e.previous_version_id))
          = (DbEdit.list_for_article 0 c8State).map
            (fun e => (e.hash, e.diff, e.summary, e.creator_id, e.previous_version_id)) := by
  obtain ⟨⟨article, h1, h2, h3, h4⟩, hframe⟩ :=
    c8_fork_fidelity cfg0 u0 ⟨0, "F"⟩ c8State c8Article (by decide) (by decide) (by decide)
      (by decide)
  exact ⟨article, h1, h2, h3⟩

/-- Behavior of `edit_article` once all validation checks have passed: either
the fast-path commit (stated previous version equals the latest version) or
conflict creation followed by the immediate auto-merge attempt. -/
theorem edit_article_after_validation (cfg : Config) (u : UserCtx) (f : EditArticleForm)
    (s : State) (a : DbArticle) (ft : String)
    (hres : f.resolve_conflict_id = none)
    (hread : DbArticle.read f.article_id s = some a)
    (hnoop : ¬ f.new_text = a.text)
    (hsum : ¬ f.summary = "")
    (hedit : can_edit_article a u.admin = .ok ())
    (hlink : ¬ strContains (if endsWithChar f.new_text '\n' = true then f.new_text
        else f.new_text ++ "\n") ("](https://" ++ cfg.domain) = true)
    (hfmt : cfg.fmt (if endsWithChar f.new_text '\n' = true then f.new_text
        else f.new_text ++ "\n") = some ft) :
    edit_article cfg u f s =
      if f.previous_version_id = DbArticle.latest_edit_version a s then
        (submit_article_update ft f.summary f.previous_version_id a u.person_id s, .ok none)
      else
        match generate_article_version (DbEdit.list_for_article a.id s)
            f.previous_version_id with
        | none => (s, .error .versionNotFound)
        | some ancestor =>
          match DbEdit.read f.previous_version_id s with
          | none => (s, .error .editNotFound)
          | some previous_version =>
            DbConflict.to_api_conflict cfg
              (DbConflict.create
                { hash := EditVersion.new (create_patch ancestor ft).toText,
                  diff := create_patch ancestor ft, summary := f.summary,
                  creator_id := u.person_id, article_id := a.id,
                  previous_version_id := previous_version.hash } s).1
              (DbConflict.create
                { hash := EditVersion.new (create_patch ancestor ft).toText,
                  diff := create_patch ancestor ft, summary := f.summary,
                  creator_id := u.person_id, article_id := a.id,
                  previous_version_id := previous_version.hash } s).2 := by
  unfold edit_article
  rw [hres]
  dsimp only
  rw [hread]
  dsimp only
  unfold edit_article_checked
  rw [if_neg hnoop, if_neg hsum, hedit]
  dsimp only
  rw [if_neg hlink, hfmt]

/-- C2 amended: an edit submission that passes validation commits directly
and creates no conflict when the stated previous version equals the latest
version; when it differs, a conflict row carrying the diff from the
reconstructed ancestor to the new text, the summary, the creator and the
stated previous version is created exactly when the stated version is
reconstructible and names a stored edit (otherwise the call fails with no
conflict and no commit), and that row is immediately handed to auto-merge
resolution, which on a clean merge deletes it again and commits the merged
text. -/
theorem c2_submit_edit_branches (cfg : Config) (u : UserCtx) (f : EditArticleForm) (s : State)
    (a : DbArticle) (ft : String)
    (hres : f.resolve_conflict_id = none)
    (hread : DbArticle.read f.article_id s = some a)
    (hnoop : ¬ f.new_text = a.text)
    (hsum : ¬ f.summary = "")
    (hedit : can_edit_article a u.admin = .ok ())
    (hlink : ¬ strContains (if endsWithChar f.new_text '\n' = true then f.new_text
        else f.new_text ++ "\n") ("](https://" ++ cfg.domain) = true)
    (hfmt : cfg.fmt (if endsWithChar f.new_text '\n' = true then f.new_text
        else f.new_text ++ "\n") = some ft)
    (hcfresh : ∀ x ∈ s.conflicts, ¬ x.id = s.nextConflictId) :
    (f.previous_version_id = DbArticle.latest_edit_version a s →
      edit_article cfg u f s
        = (submit_article_update ft f.summary f.previous_version_id a u.person_id s, .ok none)
      ∧ (edit_article cfg u f s).1.conflicts = s.conflicts)
    ∧ (¬ f.previous_version_id = DbArticle.latest_edit_version a s →
        generate_article_version (DbEdit.list_for_article a.id s) f.previous_version_id = none →
        edit_article cfg u f s = (s, .error .versionNotFound))
    ∧ (∀ ancestor, ¬ f.previous_version_id = DbArticle.latest_edit_version a s →
        generate_article_version (DbEdit.list_for_article a.id s) f.previous_version_id
          = some ancestor →
        DbEdit.read f.previous_version_id s = none →
        edit_article cfg u f s = (s, .error .editNotFound))
    ∧ (∀ ancestor pv, ¬ f.previous_version_id = DbArticle.latest_edit_version a s →
        generate_article_version (DbEdit.list_for_article a.id s) f.previous_version_id
          = some ancestor →
        DbEdit.read f.previous_version_id s = some pv →
        a.localFlag = true →
        ((∀ tw, cfg.mergeFn ancestor ft a.text = .error tw →
          (edit_article cfg u f s).1.conflicts = s.conflicts ++
            [{ id := s.nextConflictId,
               hash := EditVersion.new (create_patch ancestor ft).toText,
               diff := create_patch ancestor ft, summary := f.summary,
               creator_id := u.person_id, article_id := a.id,
               previous_version_id := f.previous_version_id }]
          ∧ (edit_article cfg u f s).1.edits = s.edits
          ∧ (edit_article cfg u f s).2 = .ok (some
              { id := s.nextConflictId,
                hash := EditVersion.new (create_patch ancestor ft).toText,
                three_way_merge := tw, summary := f.summary, article := a,
                previous_version_id := DbArticle.latest_edit_version a s }))
        ∧ (∀ m, cfg.mergeFn ancestor ft a.text = .ok m →
            (edit_article cfg u f s).1.conflicts = s.conflicts
            ∧ (edit_article cfg u f s).2 = .ok none
            ∧ (edit_article cfg u f s).1.edits = s.edits ++
              [{ id := s.nextEditId, creator_id := u.person_id,
                 hash := EditVersion.new (create_patch a.text m).toText,
                 ap_id := a.ap_id ++ "/" ++ (EditVersion.new (create_patch a.text m).toText).hash,
                 diff := create_patch a.text m, summary := f.summary, article_id := a.id,
                 previous_version_id := f.previous_version_id, published := 0 }]))) := by
  have hafter := edit_article_after_validation cfg u f s a ft hres hread hnoop hsum hedit
    hlink hfmt
  refine ⟨?_, ?_, ?_, ?_⟩
  · intro hprev
    rw [hafter, if_pos hprev]
    exact ⟨rfl, submit_conflicts_unchanged ft f.summary f.previous_version_id a u.person_id s⟩
  · intro hprev hgen
    rw [hafter, if_neg hprev, hgen]
  · intro ancestor hprev hgen hpv
    rw [hafter, if_neg hprev, hgen]
    dsimp only
    rw [hpv]
  · intro ancestor pv hprev hgen hpv hlocal
    have hpvhash : pv.hash = f.previous_version_id := DbEdit.read_hash hpv
    have haid : a.id = f.article_id := DbArticle.read_id hread
    rw [hafter, if_neg hprev, hgen]
    dsimp only
    rw [hpv]
    dsimp only
    simp only [DbConflict.create]
    try dsimp only
    rw [hpvhash]
    unfold DbConflict.to_api_conflict
    try dsimp only
    have hread2 : DbArticle.read a.id
        ({ s with
            conflicts := s.conflicts ++
              [{ id := s.nextConflictId,
                 hash := EditVersion.new (create_patch ancestor ft).toText,
                 diff := create_patch ancestor ft, summary := f.summary,
                 creator_id := u.person_id, article_id := a.id,
                 previous_version_id := f.previous_version_id }],
            nextConflictId := s.nextConflictId + 1 } : State) = some a := by
      show DbArticle.read a.id s = some a
      unfold DbArticle.read
      simp only [haid]
      exact hread
    rw [hread2]
    dsimp only
    rw [if_neg (by simp [hlocal])]
    have hgen2 : generate_article_version
        (s.edits.filter (fun e => e.article_id = a.id)) f.previous_version_id
          = some ancestor := hgen
    rw [show (DbEdit.read_for_article a
        ({ s with
            conflicts := s.conflicts ++
              [{ id := s.nextConflictId,
                 hash := EditVersion.new (create_patch ancestor ft).toText,
                 diff := create_patch ancestor ft, summary := f.summary,
                 creator_id := u.person_id, article_id := a.id,
                 previous_version_id := f.previous_version_id }],
            nextConflictId := s.nextConflictId + 1 } : State))
      = s.edits.filter (fun e => e.article_id = a.id) from rfl, hgen2]
    dsimp only
    rw [applyPatch_create_patch ancestor ft]
    dsimp only
    constructor
    · intro tw hm
      rw [hm]
      dsimp only
      exact ⟨rfl, rfl, rfl⟩
    · intro m hm
      rw [hm]
      dsimp only
      have hsc := submit_conflicts_unchanged m f.summary f.previous_version_id a u.person_id
        ({ s with
            conflicts := s.conflicts ++
              [{ id := s.nextConflictId,
                 hash := EditVersion.new (create_patch ancestor ft).toText,
                 diff := create_patch ancestor ft, summary := f.summary,
                 creator_id := u.person_id, article_id := a.id,
                 previous_version_id := f.previous_version_id }],
            nextConflictId := s.nextConflictId + 1 } : State)
      have hfind : (s.conflicts ++
          [({ id := s.nextConflictId,
              hash := EditVersion.new (create_patch ancestor ft).toText,
              diff := create_patch ancestor ft, summary := f.summary,
              creator_id := u.person_id, article_id := a.id,
              previous_version_id := f.previous_version_id } : DbConflict)]).find?
            (fun y => y.id = s.nextConflictId) = some
          { id := s.nextConflictId,
            hash := EditVersion.new (create_patch ancestor ft).toText,
            diff := create_patch ancestor ft, summary := f.summary,
            creator_id := u.person_id, article_id := a.id,
            previous_version_id := f.previous_version_id } := by
        rw [find?_append_of_none (by
          rw [List.find?_eq_none]
          intro x hx
          simpa using hcfresh x hx)]
        exact List.find?_cons_of_pos _ (by simp)
      have hdel : DbConflict.delete s.nextConflictId
          (submit_article_update m f.summary f.previous_version_id a u.person_id
            ({ s with
                conflicts := s.conflicts ++
                  [{ id := s.nextConflictId,
                     hash := EditVersion.new (create_patch ancestor ft).toText,
                     diff := create_patch ancestor ft, summary := f.summary,
                     creator_id := u.person_id, article_id := a.id,
                     previous_version_id := f.previous_version_id }],
                nextConflictId := s.nextConflictId + 1 } : State)) = Except.ok
          (({ id := s.nextConflictId,
              hash := EditVersion.new (create_patch ancestor ft).toText,
              diff := create_patch ancestor ft, summary := f.summary,
              creator_id := u.person_id, article_id := a.id,
              previous_version_id := f.previous_version_id } : DbConflict),
           ({ (submit_article_update m f.summary f.previous_version_id a u.person_id
              ({ s with
                  conflicts := s.conflicts ++
                    [{ id := s.nextConflictId,
                       hash := EditVersion.new (create_patch ancestor ft).toText,
                       diff := create_patch ancestor ft, summary := f.summary,
                       creator_id := u.person_id, article_id := a.id,
                       previous_version_id := f.previous_version_id }],
                  nextConflictId := s.nextConflictId + 1 } : State)) with
             conflicts := (s.conflicts ++
                [({ id := s.nextConflictId,
                    hash := EditVersion.new (create_patch ancestor ft).toText,
                    diff := create_patch ancestor ft, summary := f.summary,
                    creator_id := u.person_id, article_id := a.id,
                    previous_version_id := f.previous_version_id } : DbConflict)]).filter
                  (fun y => ¬ y.id = s.nextConflictId) } : State)) := by
        unfold DbConflict.delete
        rw [hsc, hfind]
      rw [hdel]
      dsimp only
      refine ⟨?_, rfl, ?_⟩
      · rw [List.filter_append]
        rw [List.filter_eq_self.2 (by
          intro x hx
          simpa using hcfresh x hx)]
        simp
      · unfold submit_article_update
        rw [if_pos hlocal]
        simp [DbEdit.create, DbArticle.update_text]

theorem map_pair_update_protected (l : List DbArticle) (aid : Nat) (lk : Bool) :
    (l.map (fun x => if x.id = aid then { x with protectedFlag := lk } else x)).map
      (fun x => (x.id, x.text)) = l.map (fun x => (x.id, x.text)) := by
  induction l with
  | nil => rfl
  | cons b l ih => by_cases hb : b.id = aid <;> simp [hb, ih]

/-- C1 amended: in every reachable state, each article's materialized `text`
equals the in-order replay of its stored edit diffs from the empty text, and
only the commit path changes any text (conflict deletion and protection
updates preserve all texts and edit lists); reconstructing at
`latestVersion` via the spec's chain walk returns `text` for every article
whose edit list forms an unbroken hash chain with pairwise distinct
versions, but the auto-merge commit appends an edit whose
`previous_version_id` is the conflict's ancestor version, which can break
the chain and make the walk fail on a reachable state. -/
theorem c1_replay_invariant (cfg : Config) (ops : List Op) :
    (∀ a ∈ (run cfg ops).articles,
        replay (DbEdit.list_for_article a.id (run cfg ops)) = some a.text)
    ∧ (∀ a ∈ (run cfg ops).articles,
        chainFrom EditVersion.default "" (DbEdit.list_for_article a.id (run cfg ops)) = true →
        (vchain EditVersion.default (DbEdit.list_for_article a.id (run cfg ops))).Nodup →
        generate_article_version (DbEdit.list_for_article a.id (run cfg ops))
          (DbArticle.latest_edit_version a (run cfg ops)) = some a.text)
    ∧ (∀ (u : UserCtx) (g : DeleteConflictForm) (st : State),
        (delete_conflict u g st).1.articles = st.articles
        ∧ (delete_conflict u g st).1.edits = st.edits)
    ∧ (∀ (u : UserCtx) (g : ProtectArticleForm) (st : State),
        ((protect_article u g st).1.articles.map (fun x => (x.id, x.text)))
            = st.articles.map (fun x => (x.id, x.text))
        ∧ (protect_article u g st).1.edits = st.edits) := by
  refine ⟨(Inv_run cfg ops).1, ?_, ?_, ?_⟩
  · intro a ha hchain hnd
    have hrep := (Inv_run cfg ops).1 a ha
    have hgen := generate_article_version_of_chain _ hchain hnd
    have hfold := replayFold_of_chainFrom _ EditVersion.default "" hchain
    simp only [replay] at hrep
    rw [hfold] at hrep
    have hend := Option.some.inj hrep
    rw [latest_eq_endVer, hgen, hend]
  · intro u g st
    unfold delete_conflict
    split
    · exact ⟨rfl, rfl⟩
    next x s1 hd =>
      rw [DbConflict.delete_state hd]
      exact ⟨rfl, rfl⟩
  · intro u g st
    unfold protect_article
    split
    · exact ⟨map_pair_update_protected st.articles g.article_id g.protectedFlag, rfl⟩
    · exact ⟨rfl, rfl⟩

/-- C1 counterexample: after the auto-merge commit the article's text is
`"World\n"`, yet the spec's chain-walk reconstruction at the article's
latest version fails, so the materialized text does not equal the
reconstruction at `latestVersion` in this reachable state. -/
theorem c1_counterexample :
    ((run cfg0 c1Ops).articles.map (fun a => (a.id, a.text))) = [(0, "World\n")]
    ∧ generate_article_version (DbEdit.list_for_article 0 (run cfg0 c1Ops))
        ((DbArticle.read 0 (run cfg0 c1Ops)).elim EditVersion.default
          (fun a => DbArticle.latest_edit_version a (run cfg0 c1Ops))) = none := by
  refine ⟨by decide, by decide⟩

/-- Witness for C1 on the one-creation run, whose chain is unbroken. -/
theorem c1_replay_invariant_witness :
    replay (DbEdit.list_for_article 0 (run cfg0 c1OpsW)) = some "Hello\n"
    ∧ generate_article_version (DbEdit.list_for_article 0 (run cfg0 c1OpsW))
        (DbArticle.latest_edit_version c1ArtW (run cfg0 c1OpsW)) = some "Hello\n" := by
  have h := c1_replay_invariant cfg0 c1OpsW
  have hmem : c1ArtW ∈ (run cfg0 c1OpsW).articles := by decide
  exact ⟨h.1 c1ArtW hmem, h.2.1 c1ArtW hmem (by decide) (by decide)⟩

/-- C2 counterexample: a validated submission whose stated previous version
is the sentinel differs from the latest version, yet no conflict record is
created: the edit lookup by the sentinel hash fails, the call errors, and
the state is unchanged. -/
theorem c2_counterexample :
    (edit_article cfg0 u0 ⟨0, "C", "s2", EditVersion.default, none⟩ c2State).2
      = .error .editNotFound
    ∧ (edit_article cfg0 u0 ⟨0, "C", "s2", EditVersion.default, none⟩ c2State).1 = c2State
    ∧ ¬ EditVersion.default = DbArticle.latest_edit_version
        ⟨0, "T", "B\n", "http://example.com/article/T", 0, true, false, true⟩ c2State := by
  refine ⟨by decide, by decide, by decide⟩

/-- Witness for C2 on the fast path: the stated previous version equals the
latest version, the text is committed directly and no conflict appears. -/
theorem c2_submit_edit_branches_witness :
    edit_article cfg0 u0 ⟨0, "C", "s2", ⟨[7]⟩, none⟩ c2State
      = (submit_article_update "C\n" "s2" ⟨[7]⟩
          ⟨0, "T", "B\n", "http://example.com/article/T", 0, true, false, true⟩ 1 c2State,
        .ok none)
    ∧ (edit_article cfg0 u0 ⟨0, "C", "s2", ⟨[7]⟩, none⟩ c2State).1.conflicts = [] := by
  have h := (c2_submit_edit_branches cfg0 u0 ⟨0, "C", "s2", ⟨[7]⟩, none⟩ c2State
    ⟨0, "T", "B\n", "http://example.com/article/T", 0, true, false, true⟩ "C\n"
    rfl (by decide) (by decide) (by decide) (by decide) (by decide) (by decide)
    (by decide)).1 (by decide)
  exact ⟨h.1, h.2⟩

end Fediwiki
